import Mathlib

/-!
# create-djs-app: the scaffolding generator of `src/index.js`

A shallow embedding of the command line tool: the directory builder
`createProjectStructure`, the template composer `createTemplateFiles` with its
helpers, and the top-level `program.action`.  Strings are Lean strings, the
calls into `fs-extra` are calls into an explicit `FileSystem` record, and an
`async` function is a state transformer that either completes or throws.
-/

set_option autoImplicit false

namespace CreateDjsApp

/-! ## Node's `path` module (POSIX flavour) -/

namespace path

/-- The pieces of a path between its `/` separators, empty pieces included. -/
def splitSlash : List Char → List (List Char)
  | [] => [[]]
  | c :: cs =>
    if c = '/' then [] :: splitSlash cs
    else
      match splitSlash cs with
      | [] => [[c]]
      | s :: ss => (c :: s) :: ss

/-- The pieces glued back together with a `/` between neighbours, the way
`joined += '/' + arg` and `res += '/' + segment` build a path. -/
def glue : List (List Char) → List Char
  | [] => []
  | [s] => s
  | s :: t :: rest => s ++ '/' :: glue (t :: rest)

/-- One round of the loop of Node's `normalizeString`, taken at a separator:
`res` is the stack of segments kept so far (innermost first) and `seg` the
segment that just ended.  Empty segments and `.` are dropped, `..` removes the
last kept segment unless there is none or it is `..` itself, in which case it
is kept only when `allowAboveRoot`. -/
def normStep (allowAboveRoot : Bool) (res : List (List Char)) (seg : List Char) :
    List (List Char) :=
  if seg = [] ∨ seg = ['.'] then res
  else if seg = ['.', '.'] then
    match res with
    | last :: before =>
      if last = ['.', '.'] then (if allowAboveRoot then seg :: res else res) else before
    | [] => if allowAboveRoot then [seg] else []
  else seg :: res

/-- The segments kept by `normalizeString`, outermost first. -/
def normSegs (allowAboveRoot : Bool) (p : List Char) : List (List Char) :=
  ((splitSlash p).foldl (normStep allowAboveRoot) []).reverse

/-- Node's `normalizeString(path, allowAboveRoot, '/')`. -/
def normalizeString (allowAboveRoot : Bool) (p : List Char) : List Char :=
  glue (normSegs allowAboveRoot p)

/-- Node's `path.posix.normalize` on character lists. -/
def normalizeChars (p : List Char) : List Char :=
  if p = [] then ['.']
  else
    let isAbsolute := p.head? = some '/'
    let trailingSeparator := p.getLast? = some '/'
    let body := normalizeString (!decide isAbsolute) p
    if body = [] then
      if isAbsolute then ['/'] else if trailingSeparator then ['.', '/'] else ['.']
    else
      (if isAbsolute then ['/'] else []) ++ body ++ (if trailingSeparator then ['/'] else [])

/-- Node's `path.normalize`. -/
def normalize (p : String) : String := ⟨normalizeChars p.data⟩

/-- Node's `path.join(...args)`: the non-empty arguments are glued with `/`
and the result is normalized; with no non-empty argument the result is `.`. -/
def join (args : List String) : String :=
  let parts := (args.filter (fun a => a ≠ "")).map String.data
  if parts = [] then "." else ⟨normalizeChars (glue parts)⟩

/-- Node's `path.basename(path)` on character lists: trailing separators are
skipped and the piece after the last remaining separator is returned. -/
def basenameChars (p : List Char) : List Char :=
  ((p.reverse.dropWhile (fun c => c = '/')).takeWhile (fun c => c ≠ '/')).reverse

/-- Node's `path.basename(path)`. -/
def basename (p : String) : String := ⟨basenameChars p.data⟩

/-- Node's `path.dirname(path)` on character lists.  The scan runs from the end
down to index 1: trailing separators are skipped, then the path is cut at the
last separator before the final segment. -/
def dirnameChars : List Char → List Char
  | [] => ['.']
  | c :: cs =>
    let upToSlash :=
      (cs.reverse.dropWhile (fun x => x = '/')).dropWhile (fun x => x ≠ '/')
    match upToSlash with
    | [] => if c = '/' then ['/'] else ['.']
    | _ :: before =>
      if c = '/' ∧ before = [] then ['/', '/'] else c :: before.reverse

/-- Node's `path.dirname(path)`. -/
def dirname (p : String) : String := ⟨dirnameChars p.data⟩

end path

/-! ## Data model -/

/-- The two choices of the language prompt. -/
inductive Language where
  | JavaScript
  | TypeScript
deriving DecidableEq, Repr

/-- The choice as the string the prompt returns. -/
def Language.toString : Language → String
  | .JavaScript => "JavaScript"
  | .TypeScript => "TypeScript"

/-- The typedef `ProjectAnswers`: what `inquirer.prompt` resolves to. -/
structure ProjectAnswers where
  projectName : Option String
  language : Language
  useSlashCommands : Bool
deriving DecidableEq, Repr

/-- The typedef `ProjectStructure`: an object whose values are objects of the
same kind, listed in the order `Object.entries` enumerates it.  `empty` is
`{}`; `entry key value rest` is the object whose first entry is `key: value`
and whose other entries are those of `rest`. -/
inductive ProjectStructure where
  | empty : ProjectStructure
  | entry (key : String) (value : ProjectStructure) (rest : ProjectStructure) : ProjectStructure
deriving DecidableEq, Repr

/-- The value of `Object.keys(structure).length`. -/
def ProjectStructure.keysLength : ProjectStructure → Nat
  | .empty => 0
  | .entry _ _ rest => rest.keysLength + 1

/-- A JavaScript value as handed to `fs.writeJSON`. -/
inductive Json where
  | str : String → Json
  | bool : Bool → Json
  | arr : List Json → Json
  | obj : List (String × Json) → Json

/-- Property lookup `value[key]` on an object literal (first entry of that name). -/
def Json.get? : Json → String → Option Json
  | .obj members, key => (members.find? (fun m => m.1 = key)).map Prod.snd
  | _, _ => none

/-- The own keys of an object, `Object.keys(value)`. -/
def Json.keys : Json → List String
  | .obj members => members.map Prod.fst
  | _ => []

/-- Every piece of text in a value: the keys and the strings, at any depth. -/
def Json.texts : Json → List String
  | .str s => [s]
  | .bool _ => []
  | .arr items => textsOfItems items
  | .obj members => textsOfMembers members
where
  textsOfItems : List Json → List String
    | [] => []
    | v :: vs => v.texts ++ textsOfItems vs
  textsOfMembers : List (String × Json) → List String
    | [] => []
    | (k, v) :: ms => k :: (v.texts ++ textsOfMembers ms)

/-! ## The file system and asynchronous functions -/

/-- A call into `fs-extra`. -/
inductive Op where
  | ensureDir (path : String)
  | writeFile (path : String) (content : String)
  | writeJSON (path : String) (value : Json) (spaces : Nat)

/-- The path a call is made on. -/
def Op.path : Op → String
  | .ensureDir p => p
  | .writeFile p _ => p
  | .writeJSON p _ _ => p

/-- Whether a call writes a file. -/
def Op.isWrite : Op → Bool
  | .ensureDir _ => false
  | .writeFile _ _ => true
  | .writeJSON _ _ _ => true

/-- An awaited computation over a world `σ`: it leaves a world behind and
either resolves to a value or rejects with an error. -/
def Async (σ ε α : Type) : Type := σ → σ × Except ε α

instance instMonadAsync (σ ε : Type) : Monad (Async σ ε) where
  pure a := fun s => (s, .ok a)
  bind m f := fun s =>
    match m s with
    | (s1, .ok a) => f a s1
    | (s1, .error e) => (s1, .error e)

/-- The three `fs-extra` calls the tool makes, as operations on a world. -/
structure FileSystem (σ ε : Type) where
  ensureDir : String → Async σ ε Unit
  writeFile : String → String → Async σ ε Unit
  writeJSON : String → Json → Nat → Async σ ε Unit

/-! ## The program -/

/-- The function `createProjectStructure(targetDir, structure, currentPath)`. -/
def createProjectStructure {σ ε : Type} (fs : FileSystem σ ε) (targetDir : String) :
    ProjectStructure → String → Async σ ε Unit
  | .empty, _ => pure ()
  | .entry key value rest, currentPath => do
    let fullPath := path.join [targetDir, currentPath, key]
    fs.ensureDir fullPath
    if value.keysLength > 0 then
      createProjectStructure fs targetDir value (path.join [currentPath, key])
    createProjectStructure fs targetDir rest currentPath

/-- The constant `fileExt` of the generators. -/
def fileExt (answers : ProjectAnswers) : String :=
  if answers.language = Language.TypeScript then ".ts" else ".js"

/-- The constant `loggerContent` of `createInitialBotFiles`. -/
def loggerContent (answers : ProjectAnswers) : String :=
  (if answers.language = Language.TypeScript then "type LogLevel = \"info\" | \"warn\" | \"error\";\n\n" else "") ++
  "\nexport const logger = \x7b\n  info: (message" ++
  (if answers.language = Language.TypeScript then ": string" else "") ++
  ") => console.log(`[INFO] $\x7bmessage\x7d`),\n  warn: (message" ++
  (if answers.language = Language.TypeScript then ": string" else "") ++
  ") => console.warn(`[WARN] $\x7bmessage\x7d`),\n  error: (message" ++
  (if answers.language = Language.TypeScript then ": string" else "") ++
  ") => console.error(`[ERROR] $\x7bmessage\x7d`)\n\x7d;"

/-- The constant `readyContent` of `createInitialBotFiles`. -/
def readyContent (answers : ProjectAnswers) : String :=
  (if answers.language = Language.TypeScript then "import \x7b Client \x7d from \"discord.js\";\n" else "") ++
  "import \x7b logger \x7d from '../utils/logger" ++
  fileExt answers ++
  "';\n\nexport default \x7b\n  name: 'ready',\n  once: true,\n  " ++
  (if answers.language = Language.TypeScript then "execute(client: Client): void \x7b" else "execute(client) \x7b") ++
  "\n    logger.info(`Logged in as $\x7bclient.user.tag\x7d!`);\n  \x7d,\n\x7d;"

/-- The constant `interactionContent` of `createInitialBotFiles`. -/
def interactionContent (answers : ProjectAnswers) : String :=
  (if answers.language = Language.TypeScript then "import \x7b Interaction \x7d from \"discord.js\";\n" else "") ++
  "\nimport \x7b logger \x7d from '../utils/logger" ++
  fileExt answers ++
  "';\n\nexport default \x7b\n  name: 'interactionCreate',\n  " ++
  (if answers.language = Language.TypeScript then "async execute(interaction: Interaction): Promise<void> \x7b" else "async execute(interaction) \x7b") ++
  "\n    if (!interaction.isCommand()) return;\n\n" ++
  "    const \x7b commandName \x7d = interaction;\n" ++
  "    const command = interaction.client.commands.get(commandName);\n\n" ++
  "    if (!command) return;\n\n    try \x7b\n" ++
  "      await command.execute(interaction);\n    \x7d catch (error) \x7b\n" ++
  "      logger.error(`Error executing $\x7bcommandName\x7d`);\n" ++
  "      console.error(error);\n      await interaction.reply(\x7b \n" ++
  "        content: 'There was an error executing this command!', \n" ++
  "        ephemeral: true \n      \x7d);\n    \x7d\n  \x7d,\n\x7d;"

/-- The function `createInitialBotFiles(targetDir, answers)`. -/
def createInitialBotFiles {σ ε : Type} (fs : FileSystem σ ε) (targetDir : String)
    (answers : ProjectAnswers) : Async σ ε Unit := do
  fs.writeFile (path.join [targetDir, "src/utils/logger" ++ fileExt answers]) (loggerContent answers)
  fs.writeFile (path.join [targetDir, "src/events/ready" ++ fileExt answers]) (readyContent answers)
  if answers.useSlashCommands then
    fs.writeFile (path.join [targetDir, "src/events/interactionCreate" ++ fileExt answers])
      (interactionContent answers)

/-- The constant `tsConfig` of `createTypeScriptConfig`. -/
def tsConfig : Json :=
  .obj [
    ("compilerOptions", .obj [
      ("target", .str "ES2020"),
      ("module", .str "NodeNext"),
      ("moduleResolution", .str "NodeNext"),
      ("outDir", .str "./dist"),
      ("rootDir", .str "./src"),
      ("strict", .bool true),
      ("esModuleInterop", .bool true),
      ("skipLibCheck", .bool true),
      ("forceConsistentCasingInFileNames", .bool true)]),
    ("include", .arr [.str "src/**/*"]),
    ("exclude", .arr [.str "node_modules", .str "dist"])]

/-- The function `createTypeScriptConfig(targetDir)`. -/
def createTypeScriptConfig {σ ε : Type} (fs : FileSystem σ ε) (targetDir : String) :
    Async σ ε Unit :=
  fs.writeJSON (path.join [targetDir, "tsconfig.json"]) tsConfig 2

/-- The constant `pingCommandContent` of `createExampleCommand`. -/
def pingCommandContent (answers : ProjectAnswers) : String :=
  (if answers.language = Language.TypeScript then "import \x7b CommandInteraction \x7d from 'discord.js';" else "// No imports needed for JavaScript") ++
  "\n\n" ++
  (if answers.language = Language.TypeScript then "export default \x7b" else "module.exports = \x7b") ++
  "\n  name: 'ping',\n  description: 'Replies with Pong!',\n  " ++
  (if answers.language = Language.TypeScript then "async execute(interaction: CommandInteraction) \x7b" else "async execute(interaction) \x7b") ++
  "\n    await interaction.reply('Pong!');\n  \x7d,\n\x7d;"

/-- The function `createExampleCommand(targetDir, answers)`. -/
def createExampleCommand {σ ε : Type} (fs : FileSystem σ ε) (targetDir : String)
    (answers : ProjectAnswers) : Async σ ε Unit :=
  let commandsDir := path.join [targetDir, "src/commands"]
  let commandFileExt := if answers.language = Language.TypeScript then ".ts" else ".js"
  fs.writeFile (path.join [commandsDir, "ping" ++ commandFileExt]) (pingCommandContent answers)

/-- The function `generateReadmeContent(targetDir, answers)`. -/
def generateReadmeContent (targetDir : String) (answers : ProjectAnswers) : String :=
  "# " ++
  path.basename targetDir ++
  "\n\nA Discord bot created with create-discord-app\n\n## Getting Started\n\n" ++
  "1. Clone this repository\n2. Run `npm install`\n" ++
  "3. Create a `.env` file and add your bot token:\n   ```\n" ++
  "   TOKEN=your-bot-token-here\n   ```\n" ++
  "4. Run `npm start` to start the bot\n\n## Features\n\n- Discord.js v14\n- " ++
  answers.language.toString ++
  " support\n- Organized project structure\n" ++
  "- Environment variables support\n" ++
  (if answers.useSlashCommands then "- Slash commands support" else "") ++
  "\n"

/-- The function `generateMainContent(answers)`. -/
def generateMainContent (answers : ProjectAnswers) : String :=
  (if answers.language = Language.TypeScript then "import \x7b Client, Collection, GatewayIntentBits \x7d from \"discord.js\";\n" else "import \x7b Client, Collection, GatewayIntentBits \x7d from \"discord.js\";\n") ++
  "\nimport \x7b readdirSync \x7d from 'fs';\nimport \x7b join \x7d from 'path';\n" ++
  "import dotenv from 'dotenv';\nimport \x7b logger \x7d from './utils/logger" ++
  fileExt answers ++
  "';\n\ndotenv.config();\n\n" ++
  (if answers.language = Language.TypeScript then "declare module \"discord.js\" \x7b\n  export interface Client \x7b\n    commands: Collection<string, any>;\n  \x7d\n\x7d\n\n" else "") ++
  "\nconst client = new Client(\x7b\n  intents: [\n" ++
  "    GatewayIntentBits.Guilds,\n    GatewayIntentBits.GuildMessages,\n" ++
  "    GatewayIntentBits.MessageContent,\n  ],\n\x7d);\n\n" ++
  "client.commands = new Collection();\n\n// Load commands\n" ++
  "const commandsPath = join(__dirname, 'commands');\n" ++
  "const commandFiles = readdirSync(commandsPath).filter(file => file.endsWith('" ++
  fileExt answers ++
  "'));\n\nfor (const file of commandFiles) \x7b\n" ++
  "  const filePath = join(commandsPath, file);\n" ++
  "  import(filePath).then((command) => \x7b\n" ++
  "    if ('default' in command && 'execute' in command.default) \x7b\n" ++
  "      client.commands.set(command.default.name, command.default);\n" ++
  "      logger.info(`Loaded command: $\x7bcommand.default.name\x7d`);\n    \x7d\n" ++
  "  \x7d);\n\x7d\n\n// Load events\nconst eventsPath = join(__dirname, 'events');\n" ++
  "const eventFiles = readdirSync(eventsPath).filter(file => file.endsWith('" ++
  fileExt answers ++
  "'));\n\nfor (const file of eventFiles) \x7b\n" ++
  "  const filePath = join(eventsPath, file);\n" ++
  "  import(filePath).then((event) => \x7b\n    if ('default' in event) \x7b\n" ++
  "      if (event.default.once) \x7b\n" ++
  "        client.once(event.default.name, (...args) => event.default.execute(...args));\n" ++
  "      \x7d else \x7b\n" ++
  "        client.on(event.default.name, (...args) => event.default.execute(...args));\n" ++
  "      \x7d\n      logger.info(`Loaded event: $\x7bevent.default.name\x7d`);\n" ++
  "    \x7d\n  \x7d);\n\x7d\n\nclient.login(process.env.TOKEN);"

/-- The constant `packageJson` of `createTemplateFiles`; an object spread
`...(c ? obj : {})` appends the members of `obj` when `c` holds. -/
def packageJson (targetDir : String) (answers : ProjectAnswers) : Json :=
  .obj [
    ("name", .str (path.basename targetDir)),
    ("version", .str "1.0.0"),
    ("description", .str "A Discord bot created with create-discord-app"),
    ("main", .str (if answers.language = Language.TypeScript then "dist/index.js" else "src/index.js")),
    ("scripts", .obj ([
      ("start", .str (if answers.language = Language.TypeScript then "node dist/index.js" else "node src/index.js")),
      ("dev", .str (if answers.language = Language.TypeScript then "ts-node src/index.ts" else "nodemon src/index.js"))] ++
      (if answers.language = Language.TypeScript then [("build", Json.str "tsc")] else []))),
    ("dependencies", .obj [
      ("discord.js", .str "^14.11.0"),
      ("dotenv", .str "^16.3.1")]),
    ("devDependencies", .obj ([
      ("nodemon", Json.str "^3.0.1")] ++
      (if answers.language = Language.TypeScript then [
        ("@types/node", Json.str "^20.4.5"),
        ("typescript", Json.str "^5.1.6"),
        ("ts-node", Json.str "^10.9.1")] else [])))]

/-- The function `createTemplateFiles(targetDir, answers)`. -/
def createTemplateFiles {σ ε : Type} (fs : FileSystem σ ε) (targetDir : String)
    (answers : ProjectAnswers) : Async σ ε Unit := do
  fs.writeJSON (path.join [targetDir, "package.json"]) (packageJson targetDir answers) 2
  let mainFile := if answers.language = Language.TypeScript then "src/index.ts" else "src/index.js"
  let mainContent := generateMainContent answers
  fs.writeFile (path.join [targetDir, mainFile]) mainContent
  fs.writeFile (path.join [targetDir, ".env"]) "BOT_TOKEN=your-bot-token-here"
  fs.writeFile (path.join [targetDir, ".gitignore"]) "node_modules/\n.env\ndist/\n"
  fs.writeFile (path.join [targetDir, "README.md"]) (generateReadmeContent targetDir answers)
  if answers.language = Language.TypeScript then
    createTypeScriptConfig fs targetDir
  createExampleCommand fs targetDir answers
  createInitialBotFiles fs targetDir answers

/-- The constant `structure` of the action: `src/` with `commands/`, `events/`
and `utils/` inside, and `config/`. -/
def initialStructure : ProjectStructure :=
  .entry "src/"
    (.entry "commands/" .empty (.entry "events/" .empty (.entry "utils/" .empty .empty)))
    (.entry "config/" .empty .empty)

/-- How a run of the action ends: on the success path, with the lines printed
by `console.log`, or in the `catch` block, which prints the error and calls
`process.exit` with the given code. -/
inductive Outcome (ε : Type) where
  | success (stdout : List String) : Outcome ε
  | exited (code : Nat) (err : ε) : Outcome ε

/-- The lines the success path prints (colours left out). -/
def successOutput (projectName targetDir : String) (answers : ProjectAnswers) : List String :=
  ["\nSuccess! Created " ++ projectName ++ " at " ++ targetDir,
   "\nInside that directory, you can run several commands:",
   "\n  npm start",
   "    Starts the development server."] ++
  (if answers.language = Language.TypeScript then
    ["\n  npm run build", "    Builds the app for production."] else []) ++
  ["\nWe suggest that you begin by typing:",
   "\n  cd " ++ projectName,
   "  npm install",
   "  npm start"]

/-- The body of the callback given to `program.action`, from the line that
computes `targetDir` on: `cwd` is `process.cwd()` and `projectName` the name
after `projectName || answers.projectName`.  The callback is registered, and
called, only when the statements of the module above its registration have
completed; `runModule` is the module as a whole. -/
def action {σ ε : Type} (fs : FileSystem σ ε) (cwd projectName : String)
    (answers : ProjectAnswers) (world : σ) : σ × Outcome ε :=
  let targetDir := path.join [cwd, projectName]
  let body : Async σ ε Unit := do
    createProjectStructure fs targetDir initialStructure ""
    createTemplateFiles fs targetDir answers
  match body world with
  | (w, .ok _) => (w, .success (successOutput projectName targetDir answers))
  | (w, .error err) => (w, .exited 1 err)

/-- The name the action works with, `projectName || answers.projectName`: the
command line argument unless it is missing or empty. -/
def resolveProjectName (argument : Option String) (answers : ProjectAnswers) : Option String :=
  match argument with
  | some name => if name = "" then answers.projectName else some name
  | none => answers.projectName

/-! ## Two file systems -/

/-- A file system that records every call and lets `fails` decide, from the
calls made so far and the call at hand, whether the call throws. -/
def recording {ε : Type} (fails : List Op → Op → Option ε) : FileSystem (List Op) ε where
  ensureDir p := fun log =>
    (log ++ [Op.ensureDir p],
      match fails log (Op.ensureDir p) with
      | some e => .error e
      | none => .ok ())
  writeFile p c := fun log =>
    (log ++ [Op.writeFile p c],
      match fails log (Op.writeFile p c) with
      | some e => .error e
      | none => .ok ())
  writeJSON p v n := fun log =>
    (log ++ [Op.writeJSON p v n],
      match fails log (Op.writeJSON p v n) with
      | some e => .error e
      | none => .ok ())

/-- The failure pattern under which no call throws. -/
def neverFails {ε : Type} : List Op → Op → Option ε := fun _ _ => none

/-! ## Notions used in the statements and proofs -/

namespace path

/-- A segment that normalization keeps whenever it meets it: not empty, not `.`
and free of separators. -/
def Kept (s : List Char) : Prop := s ≠ [] ∧ s ≠ ['.'] ∧ '/' ∉ s

instance instDecidableKept (s : List Char) : Decidable (Kept s) := by
  unfold Kept; infer_instance

/-- An ordinary file or directory name: a kept segment other than `..`. -/
def IsName (s : List Char) : Prop := Kept s ∧ s ≠ ['.', '.']

instance instDecidableIsName (s : List Char) : Decidable (IsName s) := by
  unfold IsName; infer_instance

/-- A normalized path written out from its parts: whether it starts at the
root, its segments, and whether it ends in a separator. -/
def render (isAbsolute : Bool) (segs : List (List Char)) (trailingSeparator : Bool) : List Char :=
  if segs = [] then
    if isAbsolute then ['/'] else if trailingSeparator then ['.', '/'] else ['.']
  else
    (if isAbsolute then ['/'] else []) ++ glue segs ++ (if trailingSeparator then ['/'] else [])

/-- The segments of several path pieces, one piece after the other. -/
def allSegs : List (List Char) → List (List Char)
  | [] => []
  | p :: ps => splitSlash p ++ allSegs ps

/-- Whether a string starts at the root. -/
def rootOf (t : String) : Bool := decide (t.data.head? = some '/')

/-- The normalized segments of a string. -/
def segsOf (t : String) : List (List Char) := normSegs (!rootOf t) t.data

/-- A piece that can follow others in a join without restarting at the root:
a non-empty string that does not begin with a separator. -/
def IsRelative (k : String) : Prop := k ≠ "" ∧ k.data.head? ≠ some '/'

instance instDecidableIsRelative (k : String) : Decidable (IsRelative k) := by
  unfold IsRelative; infer_instance

end path

/-- The calls `ops` made one after the other on the recording file system,
stopping at the first one that throws. -/
def exec {ε : Type} (fails : List Op → Op → Option ε) : List Op → Async (List Op) ε Unit
  | [] => pure ()
  | op :: ops => fun log =>
    match fails log op with
    | some e => (log ++ [op], .error e)
    | none => exec fails ops (log ++ [op])

/-- The paths `createProjectStructure` computes for `fs.ensureDir`, in the
order of its loop. -/
def ensuredPaths (targetDir : String) : ProjectStructure → String → List String
  | .empty, _ => []
  | .entry key value rest, currentPath =>
    path.join [targetDir, currentPath, key] ::
      (ensuredPaths targetDir value (path.join [currentPath, key]) ++
        ensuredPaths targetDir rest currentPath)

/-- The nodes of a structure in pre-order, siblings in the order of the
entries, each given by the names on its path from the top. -/
def nodePaths : ProjectStructure → List (List String)
  | .empty => []
  | .entry key value rest => [key] :: ((nodePaths value).map (fun names => key :: names) ++ nodePaths rest)

/-- The number of nodes of a structure. -/
def nodeCount : ProjectStructure → Nat
  | .empty => 0
  | .entry _ value rest => 1 + nodeCount value + nodeCount rest

/-- Every name that occurs in a structure. -/
def allKeys : ProjectStructure → List String
  | .empty => []
  | .entry key value rest => key :: (allKeys value ++ allKeys rest)

/-- The calls `createTemplateFiles` makes, helpers included, in order. -/
def templateOps (targetDir : String) (answers : ProjectAnswers) : List Op :=
  [Op.writeJSON (path.join [targetDir, "package.json"]) (packageJson targetDir answers) 2,
   Op.writeFile
     (path.join [targetDir,
       if answers.language = Language.TypeScript then "src/index.ts" else "src/index.js"])
     (generateMainContent answers),
   Op.writeFile (path.join [targetDir, ".env"]) "BOT_TOKEN=your-bot-token-here",
   Op.writeFile (path.join [targetDir, ".gitignore"]) "node_modules/\n.env\ndist/\n",
   Op.writeFile (path.join [targetDir, "README.md"]) (generateReadmeContent targetDir answers)] ++
  (if answers.language = Language.TypeScript then
    [Op.writeJSON (path.join [targetDir, "tsconfig.json"]) tsConfig 2] else []) ++
  [Op.writeFile
     (path.join [path.join [targetDir, "src/commands"],
       "ping" ++ (if answers.language = Language.TypeScript then ".ts" else ".js")])
     (pingCommandContent answers),
   Op.writeFile (path.join [targetDir, "src/utils/logger" ++ fileExt answers]) (loggerContent answers),
   Op.writeFile (path.join [targetDir, "src/events/ready" ++ fileExt answers]) (readyContent answers)] ++
  (if answers.useSlashCommands then
    [Op.writeFile (path.join [targetDir, "src/events/interactionCreate" ++ fileExt answers])
      (interactionContent answers)] else [])

/-- The names a relative path is made of: its segments, empty ones left out. -/
def relNames (rel : String) : List (List Char) :=
  (path.splitSlash rel.data).filter (fun s => s ≠ [])

/-- The file system that records the calls and never throws. -/
def recorder : FileSystem (List Op) Unit := recording neverFails

/-- The relative paths of the files `createTemplateFiles` writes, in order. -/
def generatedFiles (answers : ProjectAnswers) : List String :=
  ["package.json",
   if answers.language = Language.TypeScript then "src/index.ts" else "src/index.js",
   ".env", ".gitignore", "README.md"] ++
  (if answers.language = Language.TypeScript then ["tsconfig.json"] else []) ++
  ["src/commands/ping" ++ (if answers.language = Language.TypeScript then ".ts" else ".js"),
   "src/utils/logger" ++ fileExt answers,
   "src/events/ready" ++ fileExt answers] ++
  (if answers.useSlashCommands then ["src/events/interactionCreate" ++ fileExt answers] else [])

/-- A relative path to a file, made of ordinary names only. -/
def IsPlainFile (rel : String) : Prop :=
  path.IsRelative rel ∧ relNames rel ≠ [] ∧ (∀ n ∈ relNames rel, path.IsName n) ∧
    rel.data.getLast? ≠ some '/'

instance instDecidableIsPlainFile (rel : String) : Decidable (IsPlainFile rel) := by
  unfold IsPlainFile; infer_instance

/-- Every relative path the tool can write a file at, whatever the answers. -/
def candidateFiles : List String :=
  ["package.json", ".env", ".gitignore", "README.md", "tsconfig.json",
   "src/index.js", "src/index.ts", "src/commands/ping.js", "src/commands/ping.ts",
   "src/utils/logger.js", "src/utils/logger.ts", "src/events/ready.js", "src/events/ready.ts",
   "src/events/interactionCreate.js", "src/events/interactionCreate.ts"]

/-- The text `needle` occurs somewhere in `text`. -/
def occursIn (needle text : String) : Prop := needle.data <:+: text.data

instance instDecidableOccursIn (needle text : String) : Decidable (occursIn needle text) := by
  unfold occursIn; infer_instance

/-- The keys of the object stored under `field` in an object (none when there
is no such object). -/
def Json.keysAt (value : Json) (field : String) : List String :=
  match value.get? field with
  | some inner => inner.keys
  | none => []

/-- The text a call puts into its file: the content of `writeFile`, the keys
and strings of the value of `writeJSON`. -/
def Op.texts : Op → List String
  | .ensureDir _ => []
  | .writeFile _ content => [content]
  | .writeJSON _ value _ => value.texts

/-- The texts of a list of calls, in order. -/
def allTexts : List Op → List String
  | [] => []
  | op :: ops => op.texts ++ allTexts ops

/-- The texts written before the README that do not involve the project name:
the manifest apart from its first member, the entry point, .env and .gitignore. -/
def textsBeforeReadme (lang : Language) : List String :=
  (packageJson "" ⟨none, lang, false⟩).texts.drop 2 ++
    [generateMainContent ⟨none, lang, false⟩, "BOT_TOKEN=your-bot-token-here",
      "node_modules/\n.env\ndist/\n"]

/-- The texts written after the README when slash commands are off. -/
def textsAfterReadme (lang : Language) : List String :=
  (if lang = Language.TypeScript then tsConfig.texts else []) ++
    [pingCommandContent ⟨none, lang, false⟩, loggerContent ⟨none, lang, false⟩,
      readyContent ⟨none, lang, false⟩]

/-- The directory a path names together with the directories above it: the
normalized path cut after each of its segments. -/
def selfAndAncestors (p : String) : List String :=
  (path.segsOf p).inits.tail.map (fun segs => ⟨path.render (path.rootOf p) segs false⟩)

/-- The file system as the set of directories that exist.  `ensureDir` behaves
like `mkdir -p`: it adds the directory and the directories above it, adds
nothing that is already there, and does not throw; writing a file leaves the
set of directories as it is. -/
def directories : FileSystem (Finset String) Unit where
  ensureDir p := fun dirs => (dirs ∪ (selfAndAncestors p).toFinset, .ok ())
  writeFile _ _ := fun dirs => (dirs, .ok ())
  writeJSON _ _ _ := fun dirs => (dirs, .ok ())

/-- The directories a run of `createProjectStructure` adds to the set. -/
def ensuredDirs (targetDir : String) : ProjectStructure → String → Finset String
  | .empty, _ => ∅
  | .entry key value rest, currentPath =>
    (selfAndAncestors (path.join [targetDir, currentPath, key])).toFinset ∪
      ensuredDirs targetDir value (path.join [currentPath, key]) ∪
      ensuredDirs targetDir rest currentPath

/-- Two paths that name the same directory up to one trailing separator. -/
def sameDirectory (a b : String) : Prop := a = b ∨ a ++ "/" = b ∨ a = b ++ "/"

instance instDecidableSameDirectory (a b : String) : Decidable (sameDirectory a b) := by
  unfold sameDirectory; infer_instance

/-! ## The order of `Object.entries` -/

/-- The number a property name stands for when it is an array index: the
canonical decimal writing of an integer from 0 to 2^32 - 2. -/
def arrayIndex? (key : String) : Option Nat :=
  match key.data with
  | [] => none
  | c :: cs =>
    if (c :: cs).all Char.isDigit = true ∧ (c ≠ '0' ∨ cs = []) then
      let n := (c :: cs).foldl (fun acc d => 10 * acc + (d.toNat - '0'.toNat)) 0
      if n ≤ 4294967294 then some n else none
    else none

/-- A property inserted before the properties of `listed`, put where
`Object.entries` lists it among them: `listed` has its array indices first, in
ascending order, and its other names after them.  An array index goes before
the first property that is no array index or has a larger index; any other
name goes behind the array indices and before the other names, which were
inserted after it. -/
def placeEntry (key : String) (value : ProjectStructure) : ProjectStructure → ProjectStructure
  | .empty => .entry key value .empty
  | .entry k v rest =>
    match arrayIndex? k with
    | none => .entry key value (.entry k v rest)
    | some m =>
      match arrayIndex? key with
      | some n =>
        if n ≤ m then .entry key value (.entry k v rest)
        else .entry k v (placeEntry key value rest)
      | none => .entry k v (placeEntry key value rest)

/-- The object written down as `description`, property after property in
insertion order, with its properties and those of every nested object in the
order `Object.entries` lists them: array indices first in ascending numeric
order, then the other names in insertion order. -/
def entriesOrder : ProjectStructure → ProjectStructure
  | .empty => .empty
  | .entry key value rest => placeEntry key (entriesOrder value) (entriesOrder rest)

/-! ## The module -/

/-- The names the module binds at its top level: its imports, its two
constants and its function declarations. -/
def moduleBindings : List String :=
  ["program", "inquirer", "fs", "chalk", "path", "fileURLToPath", "__filename", "__dirname",
   "createProjectStructure", "createInitialBotFiles", "createTemplateFiles",
   "createTypeScriptConfig", "createExampleCommand", "generateReadmeContent",
   "generateMainContent"]

/-- The names Node binds globally: the built-ins of the language and Node's
own. -/
def globalNames : List String :=
  ["globalThis", "global", "undefined", "NaN", "Infinity", "Object", "Function", "Array",
   "String", "Boolean", "Number", "Symbol", "BigInt", "Math", "JSON", "Date", "RegExp",
   "Promise", "Proxy", "Reflect", "Map", "Set", "WeakMap", "WeakSet", "WeakRef",
   "FinalizationRegistry", "Error", "TypeError", "RangeError", "ReferenceError",
   "SyntaxError", "EvalError", "URIError", "AggregateError", "ArrayBuffer",
   "SharedArrayBuffer", "DataView", "Atomics", "Int8Array", "Uint8Array",
   "Uint8ClampedArray", "Int16Array", "Uint16Array", "Int32Array", "Uint32Array",
   "Float32Array", "Float64Array", "BigInt64Array", "BigUint64Array", "Intl", "WebAssembly",
   "parseInt", "parseFloat", "isNaN", "isFinite", "encodeURI", "decodeURI",
   "encodeURIComponent", "decodeURIComponent", "escape", "unescape", "eval", "console",
   "process", "Buffer", "setTimeout", "clearTimeout", "setInterval", "clearInterval",
   "setImmediate", "clearImmediate", "queueMicrotask", "structuredClone", "atob", "btoa",
   "URL", "URLSearchParams", "TextEncoder", "TextDecoder", "AbortController", "AbortSignal",
   "Event", "EventTarget", "MessageChannel", "MessagePort", "MessageEvent", "BroadcastChannel",
   "Blob", "performance", "fetch", "Headers", "Request", "Response", "FormData", "crypto"]

/-- An expression statement that is a bare reference to `name`, evaluated at
the top level of the module: it completes when the name is bound there or
globally and throws a ReferenceError otherwise. -/
def evaluateReference (name : String) : Except String Unit :=
  if name ∈ moduleBindings ∨ name ∈ globalNames then .ok ()
  else .error ("ReferenceError: " ++ name ++ " is not defined")

/-- How the process of `node src/index.js` ends: with an exception nothing
catches, which Node prints before it exits with the given code, or after the
action has run to one of its two ends. -/
inductive ProcessEnd (ε : Type) where
  | uncaught (error : String) (exitCode : Nat) : ProcessEnd ε
  | ran (outcome : Outcome ε) : ProcessEnd ε

/-- The module as `node src/index.js [project-directory]` evaluates it.  The
imports are hoisted; the statements follow in source order.  The first one is
the expression statement `crea` that stands behind the import of fs-extra on
line 17.  Only when it completes are the constants and functions set up, the
action registered with `program.action` and called by `program.parse()` with
the command line argument; the action resolves the project name and runs its
body, `action`.  A missing project name makes `path.join` throw a TypeError
before the `try` block. -/
def runModule {σ ε : Type} (fs : FileSystem σ ε) (cwd : String) (argument : Option String)
    (answers : ProjectAnswers) (world : σ) : σ × ProcessEnd ε :=
  match evaluateReference "crea" with
  | .error error => (world, .uncaught error 1)
  | .ok _ =>
    match resolveProjectName argument answers with
    | none =>
      (world, .uncaught "TypeError [ERR_INVALID_ARG_TYPE]: The \"path\" argument must be of type string. Received undefined" 1)
    | some projectName =>
      let result := action fs cwd projectName answers world
      (result.1, .ran result.2)

/-! ## Facts about paths -/

namespace path

theorem splitSlash_ne_nil (p : List Char) : splitSlash p ≠ [] := by
  cases p with
  | nil => simp [splitSlash]
  | cons c cs =>
    unfold splitSlash
    split
    · simp
    · split <;> simp

theorem splitSlash_cons_slash (p : List Char) : splitSlash ('/' :: p) = [] :: splitSlash p := by
  simp [splitSlash]

theorem splitSlash_cons_other (c : Char) (p s : List Char) (ss : List (List Char))
    (hc : c ≠ '/') (h : splitSlash p = s :: ss) : splitSlash (c :: p) = (c :: s) :: ss := by
  rw [splitSlash, if_neg hc, h]

theorem splitSlash_append_slash (a b : List Char) :
    splitSlash (a ++ '/' :: b) = splitSlash a ++ splitSlash b := by
  induction a with
  | nil => simp [splitSlash]
  | cons c cs ih =>
    by_cases hc : c = '/'
    · subst hc
      simp [splitSlash_cons_slash, ih]
    · obtain ⟨s, ss, hs⟩ := List.exists_cons_of_ne_nil (splitSlash_ne_nil cs)
      rw [List.cons_append, splitSlash_cons_other c _ s (ss ++ splitSlash b) hc (by rw [ih, hs]; rfl),
        splitSlash_cons_other c cs s ss hc hs]
      rfl

theorem splitSlash_of_not_mem (s : List Char) (h : '/' ∉ s) : splitSlash s = [s] := by
  induction s with
  | nil => rfl
  | cons c cs ih =>
    have hc : c ≠ '/' := fun e => h (by simp [e])
    have hcs : '/' ∉ cs := fun e => h (List.mem_cons_of_mem _ e)
    exact splitSlash_cons_other c cs cs [] hc (ih hcs)

theorem not_mem_of_mem_splitSlash (p s : List Char) (h : s ∈ splitSlash p) : '/' ∉ s := by
  induction p generalizing s with
  | nil => simp [splitSlash] at h; simp [h]
  | cons c cs ih =>
    by_cases hc : c = '/'
    · subst hc
      rw [splitSlash_cons_slash] at h
      rcases List.mem_cons.1 h with h | h
      · simp [h]
      · exact ih s h
    · obtain ⟨t, ts, hs⟩ := List.exists_cons_of_ne_nil (splitSlash_ne_nil cs)
      rw [splitSlash_cons_other c cs t ts hc hs] at h
      rcases List.mem_cons.1 h with h | h
      · subst h
        have : '/' ∉ t := ih t (by simp [hs])
        intro hm
        rcases List.mem_cons.1 hm with e | e
        · exact hc e.symm
        · exact this e
      · exact ih s (by simp [hs, h])

theorem splitSlash_glue (segs : List (List Char)) (hne : segs ≠ [])
    (h : ∀ s ∈ segs, '/' ∉ s) : splitSlash (glue segs) = segs := by
  induction segs with
  | nil => exact absurd rfl hne
  | cons s rest ih =>
    cases rest with
    | nil => simpa [glue] using splitSlash_of_not_mem s (h s (by simp))
    | cons t rest =>
      rw [glue, splitSlash_append_slash, splitSlash_of_not_mem s (h s (by simp)),
        ih (by simp) (fun x hx => h x (List.mem_cons_of_mem _ hx))]
      rfl

end path

namespace path

theorem normStep_nil (a : Bool) (res : List (List Char)) : normStep a res [] = res := by
  simp [normStep]

theorem normStep_dot (a : Bool) (res : List (List Char)) : normStep a res ['.'] = res := by
  simp [normStep]

theorem normStep_name (a : Bool) (res : List (List Char)) (s : List Char) (h : IsName s) :
    normStep a res s = s :: res := by
  obtain ⟨⟨h1, h2, _⟩, h3⟩ := h
  simp [normStep, h1, h2, h3]

theorem foldl_normStep_names (a : Bool) (names res : List (List Char))
    (h : ∀ s ∈ names, IsName s) : names.foldl (normStep a) res = names.reverse ++ res := by
  induction names generalizing res with
  | nil => rfl
  | cons s rest ih =>
    rw [List.foldl_cons, normStep_name a res s (h s (by simp)),
      ih _ (fun x hx => h x (List.mem_cons_of_mem _ hx))]
    simp

/-- Skipping the segments that normalization ignores changes nothing. -/
theorem foldl_normStep_filter (a : Bool) (segs res : List (List Char)) :
    segs.foldl (normStep a) res = (segs.filter (fun s => s ≠ [])).foldl (normStep a) res := by
  induction segs generalizing res with
  | nil => rfl
  | cons s rest ih =>
    by_cases hs : s = []
    · subst hs
      simp [normStep_nil, ih]
    · simp [List.filter_cons, hs, ih]

/-- Whatever normalization keeps on its stack is a kept segment. -/
theorem kept_of_mem_foldl (a : Bool) (segs res : List (List Char))
    (hsegs : ∀ s ∈ segs, '/' ∉ s) (hres : ∀ s ∈ res, Kept s) :
    ∀ s ∈ segs.foldl (normStep a) res, Kept s := by
  induction segs generalizing res with
  | nil => simpa using hres
  | cons x rest ih =>
    rw [List.foldl_cons]
    apply ih _ (fun s hs => hsegs s (List.mem_cons_of_mem _ hs))
    intro s hs
    unfold normStep at hs
    split at hs
    · exact hres s hs
    · rename_i hx
      have hxk : Kept x := ⟨fun e => hx (Or.inl e), fun e => hx (Or.inr e), hsegs x (by simp)⟩
      split at hs
      · split at hs
        · rename_i last before
          split at hs
          · split at hs
            · rcases List.mem_cons.1 hs with e | e
              · exact e ▸ hxk
              · exact hres s e
            · exact hres s hs
          · exact hres s (List.mem_cons_of_mem _ hs)
        · split at hs
          · simp at hs; exact hs ▸ hxk
          · simp at hs
      · rcases List.mem_cons.1 hs with e | e
        · exact e ▸ hxk
        · exact hres s e

/-- With `allowAboveRoot` off and nothing above the root on the stack, only
names are kept. -/
theorem name_of_mem_foldl (segs res : List (List Char))
    (hsegs : ∀ s ∈ segs, '/' ∉ s) (hres : ∀ s ∈ res, IsName s) :
    ∀ s ∈ segs.foldl (normStep false) res, IsName s := by
  induction segs generalizing res with
  | nil => simpa using hres
  | cons x rest ih =>
    rw [List.foldl_cons]
    apply ih _ (fun s hs => hsegs s (List.mem_cons_of_mem _ hs))
    intro s hs
    unfold normStep at hs
    split at hs
    · exact hres s hs
    · rename_i hx
      split at hs
      · split at hs
        · rename_i last before
          split at hs
          · simp only [Bool.false_eq_true, if_false] at hs; exact hres s hs
          · exact hres s (List.mem_cons_of_mem _ hs)
        · simp at hs
      · rename_i hdd
        have hxn : IsName x :=
          ⟨⟨fun e => hx (Or.inl e), fun e => hx (Or.inr e), hsegs x (by simp)⟩, hdd⟩
        rcases List.mem_cons.1 hs with e | e
        · exact e ▸ hxn
        · exact hres s e

end path

namespace path

theorem glue_cons_cons (s t : List Char) (rest : List (List Char)) :
    glue (s :: t :: rest) = s ++ '/' :: glue (t :: rest) := rfl

theorem glue_cons_of_ne_nil (s : List Char) (rest : List (List Char)) (h : rest ≠ []) :
    glue (s :: rest) = s ++ '/' :: glue rest := by
  cases rest with
  | nil => exact absurd rfl h
  | cons t rest => rfl

theorem glue_append (l1 l2 : List (List Char)) (h1 : l1 ≠ []) (h2 : l2 ≠ []) :
    glue (l1 ++ l2) = glue l1 ++ '/' :: glue l2 := by
  induction l1 with
  | nil => exact absurd rfl h1
  | cons s rest ih =>
    cases rest with
    | nil => simpa [glue] using glue_cons_of_ne_nil s l2 h2
    | cons t rest =>
      rw [List.cons_append, glue_cons_of_ne_nil s _ (by simp), ih (by simp), glue_cons_cons]
      simp

theorem glue_ne_nil (segs : List (List Char)) (hne : segs ≠ []) (h : ∀ s ∈ segs, s ≠ []) :
    glue segs ≠ [] := by
  cases segs with
  | nil => exact absurd rfl hne
  | cons s rest =>
    cases rest with
    | nil => simpa [glue] using h s (by simp)
    | cons t rest => simp [glue]

theorem head?_glue (segs : List (List Char)) (s : List Char) (rest : List (List Char))
    (hs : segs = s :: rest) (hne : s ≠ []) : (glue segs).head? = s.head? := by
  subst hs
  cases s with
  | nil => exact absurd rfl hne
  | cons c cs => cases rest <;> simp [glue]

theorem splitSlash_glue_allSegs (parts : List (List Char)) (hne : parts ≠ []) :
    splitSlash (glue parts) = allSegs parts := by
  induction parts with
  | nil => exact absurd rfl hne
  | cons p rest ih =>
    cases rest with
    | nil => simp [glue, allSegs]
    | cons q rest =>
      rw [glue_cons_cons, splitSlash_append_slash, ih (by simp)]
      rfl

theorem allSegs_append (l1 l2 : List (List Char)) :
    allSegs (l1 ++ l2) = allSegs l1 ++ allSegs l2 := by
  induction l1 with
  | nil => rfl
  | cons p rest ih => simp [allSegs, ih]

theorem not_mem_of_mem_allSegs (parts : List (List Char)) (s : List Char)
    (h : s ∈ allSegs parts) : '/' ∉ s := by
  induction parts with
  | nil => simp [allSegs] at h
  | cons p rest ih =>
    rcases List.mem_append.1 h with h | h
    · exact not_mem_of_mem_splitSlash p s h
    · exact ih h

/-- The body of a normalized path is empty only when no segment is kept. -/
theorem normalizeChars_eq_render (p : List Char) (hp : p ≠ []) :
    normalizeChars p
      = render (decide (p.head? = some '/'))
          (normSegs (!decide (p.head? = some '/')) p) (decide (p.getLast? = some '/')) := by
  have hk : ∀ s ∈ normSegs (!decide (p.head? = some '/')) p, Kept s := by
    intro s hs
    unfold normSegs at hs
    exact kept_of_mem_foldl _ _ [] (fun x hx => not_mem_of_mem_splitSlash p x hx) (by simp) s
      (List.mem_reverse.1 hs)
  unfold normalizeChars render normalizeString
  rw [if_neg hp]
  by_cases hn : normSegs (!decide (p.head? = some '/')) p = []
  · simp [hn, glue]
  · have : glue (normSegs (!decide (p.head? = some '/')) p) ≠ [] :=
      glue_ne_nil _ hn (fun s hs => (hk s hs).1)
    simp [hn, this]

/-- Splitting a rendered path again and normalizing on any stack visits its
segments and nothing else. -/
theorem foldl_splitSlash_render (a abs tr : Bool) (segs S : List (List Char))
    (h : ∀ s ∈ segs, Kept s) :
    (splitSlash (render abs segs tr)).foldl (normStep a) S = segs.foldl (normStep a) S := by
  by_cases hn : segs = []
  · subst hn
    cases abs <;> cases tr <;> simp [render, splitSlash, normStep]
  · have hs : splitSlash (glue segs) = segs := splitSlash_glue segs hn (fun s hs => (h s hs).2.2)
    have e1 : splitSlash (glue segs ++ ['/']) = segs ++ [[]] := by
      rw [splitSlash_append_slash, hs]; rfl
    cases abs <;> cases tr <;>
      simp [render, hn, hs, e1, splitSlash_cons_slash, List.foldl_append, normStep_nil]

end path

namespace path

theorem data_ne_nil (t : String) (h : t ≠ "") : t.data ≠ [] :=
  fun e => h (String.ext e)

theorem filter_relative (ks : List String) (h : ∀ k ∈ ks, IsRelative k) :
    ks.filter (fun a => a ≠ "") = ks := by
  rw [List.filter_eq_self]
  intro k hk
  simpa using (h k hk).1

theorem join_nil_cons (args : List String) : join ("" :: args) = join args := by
  simp [join]

theorem segsOf_empty : segsOf "" = [] := by
  simp [segsOf, normSegs, splitSlash, normStep]

theorem rootOf_empty : rootOf "" = false := by
  simp [rootOf]

theorem getLast?_append_cons_ne_nil (a b : List Char) (c : Char) (h : b ≠ []) :
    (a ++ c :: b).getLast? = b.getLast? := by
  obtain ⟨x, xs, rfl⟩ := List.exists_cons_of_ne_nil h
  rw [show a ++ c :: x :: xs = (a ++ [c]) ++ x :: xs by simp, List.getLast?_append_cons]

/-- The first piece of a join of relative pieces decides nothing: the result is
relative, and its segments are those of the pieces normalized together. -/
theorem join_relative (ks : List String) (hne : ks ≠ []) (hrel : ∀ k ∈ ks, IsRelative k) :
    join ks
      = ⟨render false ((allSegs (ks.map String.data)).foldl (normStep true) []).reverse
          (decide ((glue (ks.map String.data)).getLast? = some '/'))⟩ := by
  obtain ⟨k, rest, rfl⟩ := List.exists_cons_of_ne_nil hne
  have hk := hrel k (by simp)
  have hg : glue ((k :: rest).map String.data) ≠ [] := by
    cases rest <;> simp [glue, data_ne_nil k hk.1]
  have hh : (glue ((k :: rest).map String.data)).head? ≠ some '/' := by
    rw [List.map_cons, head?_glue _ k.data (rest.map String.data) rfl (data_ne_nil k hk.1)]
    exact hk.2
  unfold join
  rw [filter_relative _ hrel]
  simp only [List.map_eq_nil_iff, reduceCtorEq, if_false]
  rw [normalizeChars_eq_render _ hg]
  simp only [hh, decide_False, Bool.not_false, normSegs]
  rw [splitSlash_glue_allSegs _ (by simp)]

/-- A join whose first piece is any string and whose other pieces are relative:
the first piece decides whether the result starts at the root, the last piece
whether it ends in a separator, and the segments of the other pieces are
visited on top of the normalized segments of the first. -/
theorem join_cons_relative (t : String) (ks : List String) (hne : ks ≠ [])
    (hrel : ∀ k ∈ ks, IsRelative k) :
    join (t :: ks)
      = ⟨render (rootOf t)
          ((allSegs (ks.map String.data)).foldl (normStep (!rootOf t)) (segsOf t).reverse).reverse
          (decide ((glue (ks.map String.data)).getLast? = some '/'))⟩ := by
  by_cases ht : t = ""
  · subst ht
    rw [join_nil_cons, join_relative ks hne hrel, rootOf_empty, segsOf_empty]
    rfl
  · have htd := data_ne_nil t ht
    have hks : (ks.map String.data) ≠ [] := by simpa using hne
    have hg : glue (ks.map String.data) ≠ [] := by
      obtain ⟨k, rest, rfl⟩ := List.exists_cons_of_ne_nil hne
      have hk := hrel k (by simp)
      cases rest <;> simp [glue, data_ne_nil k hk.1]
    have hf : (t :: ks).filter (fun a => a ≠ "") = t :: ks := by
      rw [List.filter_eq_self]
      intro k hk
      rcases List.mem_cons.1 hk with e | e
      · simpa [e] using ht
      · simpa using (hrel k e).1
    unfold join
    rw [hf, List.map_cons]
    simp only [reduceCtorEq, if_false]
    rw [normalizeChars_eq_render _ (by rw [glue_cons_of_ne_nil _ _ hks]; simp),
      glue_cons_of_ne_nil _ _ hks]
    have hhead : (t.data ++ '/' :: glue (ks.map String.data)).head? = t.data.head? := by
      cases h : t.data with
      | nil => exact absurd h htd
      | cons c cs => rfl
    rw [hhead, getLast?_append_cons_ne_nil _ _ _ hg]
    simp only [normSegs, segsOf, rootOf, splitSlash_append_slash, splitSlash_glue_allSegs _ hks,
      List.foldl_append, List.reverse_reverse]

end path

/-! ## The recording file system runs a list of calls -/

theorem async_pure_apply {σ ε α : Type} (a : α) (s : σ) :
    (pure a : Async σ ε α) s = (s, .ok a) := rfl

theorem async_bind_apply {σ ε α β : Type} (m : Async σ ε α) (f : α → Async σ ε β) (s : σ) :
    (m >>= f) s = match m s with
      | (s1, .ok a) => f a s1
      | (s1, .error e) => (s1, .error e) := rfl

theorem exec_nil {ε : Type} (fails : List Op → Op → Option ε) :
    exec fails [] = pure () := rfl

theorem exec_cons_apply {ε : Type} (fails : List Op → Op → Option ε) (op : Op)
    (ops log : List Op) :
    exec fails (op :: ops) log = match fails log op with
      | some e => (log ++ [op], .error e)
      | none => exec fails ops (log ++ [op]) := by
  rw [exec]

theorem exec_cons_of_fails {ε : Type} (fails : List Op → Op → Option ε) (op : Op)
    (ops log : List Op) (e : ε) (h : fails log op = some e) :
    exec fails (op :: ops) log = (log ++ [op], .error e) := by
  rw [exec_cons_apply, h]

theorem exec_cons_of_passes {ε : Type} (fails : List Op → Op → Option ε) (op : Op)
    (ops log : List Op) (h : fails log op = none) :
    exec fails (op :: ops) log = exec fails ops (log ++ [op]) := by
  rw [exec_cons_apply, h]

theorem exec_append {ε : Type} (fails : List Op → Op → Option ε) (a b : List Op) :
    exec fails (a ++ b) = (exec fails a >>= fun _ => exec fails b) := by
  induction a with
  | nil => funext log; rfl
  | cons op ops ih =>
    funext log
    rw [List.cons_append, async_bind_apply]
    cases h : fails log op with
    | some e => rw [exec_cons_of_fails _ _ _ _ e h, exec_cons_of_fails _ _ _ _ e h]
    | none =>
      rw [exec_cons_of_passes _ _ _ _ h, exec_cons_of_passes _ _ _ _ h, ih]
      rfl

theorem recording_ensureDir {ε : Type} (fails : List Op → Op → Option ε) (p : String) :
    (recording fails).ensureDir p = exec fails [Op.ensureDir p] := by
  funext log
  rw [exec_cons_apply]
  show (log ++ [Op.ensureDir p], _) = _
  cases fails log (Op.ensureDir p) <;> rfl

theorem recording_writeFile {ε : Type} (fails : List Op → Op → Option ε) (p c : String) :
    (recording fails).writeFile p c = exec fails [Op.writeFile p c] := by
  funext log
  rw [exec_cons_apply]
  show (log ++ [Op.writeFile p c], _) = _
  cases fails log (Op.writeFile p c) <;> rfl

theorem recording_writeJSON {ε : Type} (fails : List Op → Op → Option ε) (p : String)
    (v : Json) (n : Nat) :
    (recording fails).writeJSON p v n = exec fails [Op.writeJSON p v n] := by
  funext log
  rw [exec_cons_apply]
  show (log ++ [Op.writeJSON p v n], _) = _
  cases fails log (Op.writeJSON p v n) <;> rfl

theorem ensuredPaths_of_keysLength_zero (targetDir : String) (value : ProjectStructure)
    (cur : String) (h : ¬ value.keysLength > 0) : ensuredPaths targetDir value cur = [] := by
  cases value with
  | empty => rfl
  | entry k v r => simp [ProjectStructure.keysLength] at h

/-- On the recording file system `createProjectStructure` is the run of its
`ensureDir` calls. -/
theorem createProjectStructure_recording {ε : Type} (fails : List Op → Op → Option ε)
    (targetDir : String) (tree : ProjectStructure) (cur : String) :
    createProjectStructure (recording fails) targetDir tree cur
      = exec fails ((ensuredPaths targetDir tree cur).map Op.ensureDir) := by
  induction tree generalizing cur with
  | empty => rfl
  | entry key value rest ihv ihr =>
    unfold createProjectStructure
    simp only [ensuredPaths, List.map_cons, List.map_append]
    rw [show Op.ensureDir (path.join [targetDir, cur, key]) ::
          (List.map Op.ensureDir (ensuredPaths targetDir value (path.join [cur, key])) ++
            List.map Op.ensureDir (ensuredPaths targetDir rest cur))
        = [Op.ensureDir (path.join [targetDir, cur, key])] ++
          (List.map Op.ensureDir (ensuredPaths targetDir value (path.join [cur, key])) ++
            List.map Op.ensureDir (ensuredPaths targetDir rest cur)) from rfl,
      exec_append, exec_append, recording_ensureDir, ihr]
    by_cases h : value.keysLength > 0
    · simp only [h, if_true, ihv]
    · simp only [h, if_false, ensuredPaths_of_keysLength_zero targetDir value _ h, List.map_nil]
      rfl

theorem async_pure_bind {σ ε α β : Type} (a : α) (f : α → Async σ ε β) :
    (pure a >>= f) = f a := rfl

theorem exec_bind {ε : Type} (fails : List Op → Op → Option ε) (a b : List Op) :
    (exec fails a >>= fun _ => exec fails b) = exec fails (a ++ b) :=
  (exec_append fails a b).symm

theorem createInitialBotFiles_recording {ε : Type} (fails : List Op → Op → Option ε)
    (targetDir : String) (answers : ProjectAnswers) :
    createInitialBotFiles (recording fails) targetDir answers
      = exec fails
        ([Op.writeFile (path.join [targetDir, "src/utils/logger" ++ fileExt answers])
            (loggerContent answers),
          Op.writeFile (path.join [targetDir, "src/events/ready" ++ fileExt answers])
            (readyContent answers)] ++
          (if answers.useSlashCommands then
            [Op.writeFile (path.join [targetDir, "src/events/interactionCreate" ++ fileExt answers])
              (interactionContent answers)] else [])) := by
  unfold createInitialBotFiles
  cases answers.useSlashCommands <;>
    simp only [recording_writeFile, if_true, if_false, Bool.false_eq_true, exec_bind, ← exec_nil fails,
      List.cons_append, List.nil_append, List.append_nil]

/-- On the recording file system `createTemplateFiles` is the run of its calls. -/
theorem createTemplateFiles_recording {ε : Type} (fails : List Op → Op → Option ε)
    (targetDir : String) (answers : ProjectAnswers) :
    createTemplateFiles (recording fails) targetDir answers
      = exec fails (templateOps targetDir answers) := by
  unfold createTemplateFiles createTypeScriptConfig createExampleCommand templateOps
  rw [createInitialBotFiles_recording]
  by_cases h : answers.language = Language.TypeScript <;>
    simp only [h, recording_writeFile, recording_writeJSON, if_true, if_false, exec_bind,
      async_pure_bind, List.cons_append, List.nil_append, List.append_nil, List.append_assoc]

namespace path

theorem kept_segsOf (t : String) : ∀ s ∈ segsOf t, Kept s := by
  intro s hs
  unfold segsOf normSegs at hs
  exact kept_of_mem_foldl _ _ [] (fun x hx => not_mem_of_mem_splitSlash _ x hx) (by simp) s
    (List.mem_reverse.1 hs)

/-- Joining a relative path made of ordinary names onto any string appends the
names to the normalized segments of the string. -/
theorem join_plain (t rel : String) (hrel : IsRelative rel)
    (hn : ∀ n ∈ relNames rel, IsName n) :
    join [t, rel]
      = ⟨render (rootOf t) (segsOf t ++ relNames rel) (decide (rel.data.getLast? = some '/'))⟩ := by
  rw [join_cons_relative t [rel] (by simp) (by simpa using hrel)]
  simp only [List.map_cons, List.map_nil, allSegs, List.append_nil, glue]
  rw [foldl_normStep_filter, show (splitSlash rel.data).filter (fun s => decide (s ≠ [])) = relNames rel
    from rfl, foldl_normStep_names _ _ _ hn]
  simp

theorem render_false_of_ne_nil (abs : Bool) (segs : List (List Char)) (h : segs ≠ []) :
    render abs segs false = (if abs then ['/'] else []) ++ glue segs := by
  simp [render, h]

theorem render_true_of_ne_nil (abs : Bool) (segs : List (List Char)) (h : segs ≠ []) :
    render abs segs true = (if abs then ['/'] else []) ++ glue segs ++ ['/'] := by
  simp [render, h]

/-- Two rendered paths without trailing separator are equal only when their
segments are. -/
theorem render_false_injective (abs : Bool) (x y : List (List Char)) (hx : x ≠ []) (hy : y ≠ [])
    (hkx : ∀ s ∈ x, '/' ∉ s) (hky : ∀ s ∈ y, '/' ∉ s)
    (h : render abs x false = render abs y false) : x = y := by
  rw [render_false_of_ne_nil abs x hx, render_false_of_ne_nil abs y hy] at h
  have hg : glue x = glue y := List.append_cancel_left h
  rw [← splitSlash_glue x hx hkx, ← splitSlash_glue y hy hky, hg]

/-- A directory path is an initial piece of a file path only when its segments
are the first segments of the file path. -/
theorem segs_prefix_of_render_prefix (abs : Bool) (x y : List (List Char)) (hx : x ≠ [])
    (hy : y ≠ []) (hkx : ∀ s ∈ x, '/' ∉ s) (hky : ∀ s ∈ y, '/' ∉ s)
    (h : render abs y true <+: render abs x false) : y <+: x := by
  rw [render_false_of_ne_nil abs x hx, render_true_of_ne_nil abs y hy] at h
  obtain ⟨rest, hrest⟩ := h
  rw [List.append_assoc, List.append_assoc] at hrest
  have hg : glue y ++ '/' :: rest = glue x := by
    have := List.append_cancel_left hrest
    simpa using this
  have hs := congrArg splitSlash hg
  rw [splitSlash_append_slash, splitSlash_glue y hy hky, splitSlash_glue x hx hkx] at hs
  exact ⟨splitSlash rest, hs⟩

end path

namespace path

theorem normStep_dotdot_cons (a : Bool) (last : List Char) (before : List (List Char))
    (h : last ≠ ['.', '.']) : normStep a (last :: before) ['.', '.'] = before := by
  simp [normStep, h]

/-- One step of the relative normalization, replayed on any stack. -/
theorem foldl_reverse_normStep (a : Bool) (R S : List (List Char)) (x : List Char)
    (hR : ∀ s ∈ R, Kept s) :
    (normStep true R x).reverse.foldl (normStep a) S
      = normStep a (R.reverse.foldl (normStep a) S) x := by
  by_cases hx : x = [] ∨ x = ['.']
  · rcases hx with hx | hx <;> subst hx <;> simp [normStep]
  · by_cases hdd : x = ['.', '.']
    · subst hdd
      cases R with
      | nil => simp [normStep]
      | cons last before =>
        by_cases hl : last = ['.', '.']
        · subst hl
          simp [normStep, List.foldl_append]
        · rw [normStep_dotdot_cons true last before hl, List.reverse_cons, List.foldl_append,
            List.foldl_cons, List.foldl_nil,
            normStep_name a _ last ⟨hR last (by simp), hl⟩, normStep_dotdot_cons a last _ hl]
    · have h1 : normStep true R x = x :: R := by
        simp only [normStep, if_neg hx, if_neg hdd]
      rw [h1, List.reverse_cons, List.foldl_append, List.foldl_cons, List.foldl_nil]

/-- Normalizing a relative path first and then continuing from any stack gives
the same stack as continuing with the path as it was. -/
theorem foldl_normStep_reverse_foldl (a : Bool) (X S : List (List Char))
    (hX : ∀ s ∈ X, '/' ∉ s) :
    (X.foldl (normStep true) []).reverse.foldl (normStep a) S = X.foldl (normStep a) S := by
  induction X using List.reverseRecOn with
  | nil => rfl
  | append_singleton Y x ih =>
    have hY : ∀ s ∈ Y, '/' ∉ s := fun s hs => hX s (by simp [hs])
    rw [List.foldl_append, List.foldl_cons, List.foldl_nil, List.foldl_append, List.foldl_cons,
      List.foldl_nil, ← ih hY]
    exact foldl_reverse_normStep a _ S x (kept_of_mem_foldl true Y [] hY (by simp))

end path

namespace path

/-- The stack normalization ends with is left unchanged by a second pass. -/
theorem foldl_normStep_fixed (b : Bool) (X : List (List Char)) (hX : ∀ s ∈ X, '/' ∉ s) :
    (X.foldl (normStep b) []).reverse.foldl (normStep b) [] = X.foldl (normStep b) [] := by
  cases b with
  | true => exact foldl_normStep_reverse_foldl true X [] hX
  | false =>
    rw [foldl_normStep_names false _ [] (fun s hs =>
      name_of_mem_foldl X [] hX (by simp) s (List.mem_reverse.1 hs))]
    simp

theorem head?_render (a tr : Bool) (segs : List (List Char)) (h : ∀ s ∈ segs, Kept s) :
    decide ((render a segs tr).head? = some '/') = a := by
  cases segs with
  | nil => cases a <;> cases tr <;> simp [render]
  | cons s rest =>
    have hs := h s (by simp)
    have hg : (glue (s :: rest)).head? = s.head? := head?_glue _ s rest rfl hs.1
    have hne : s.head? ≠ some '/' := by
      cases hd : s with
      | nil => exact absurd hd hs.1
      | cons c cs =>
        have : c ≠ '/' := fun e => hs.2.2 (by simp [hd, e])
        simpa using this
    have hgn : glue (s :: rest) ≠ [] := glue_ne_nil _ (by simp) (fun x hx => (h x hx).1)
    cases a with
    | true => simp [render]
    | false =>
      have : (render false (s :: rest) tr).head? = s.head? := by
        rw [← hg]
        obtain ⟨c, cs, hc⟩ := List.exists_cons_of_ne_nil hgn
        simp [render, hc]
      simp [this, hne]

theorem rootOf_render (a tr : Bool) (segs : List (List Char)) (h : ∀ s ∈ segs, Kept s) :
    rootOf ⟨render a segs tr⟩ = a := head?_render a tr segs h

/-- The segments of a rendered path, normalized again, are its segments
followed by nothing new, whenever they came out of a normalization. -/
theorem segsOf_render_append (t : String) (names : List (List Char)) (tr : Bool)
    (hn : ∀ n ∈ names, IsName n) :
    segsOf ⟨render (rootOf t) (segsOf t ++ names) tr⟩ = segsOf t ++ names := by
  have hk : ∀ s ∈ segsOf t ++ names, Kept s := by
    intro s hs
    rcases List.mem_append.1 hs with h | h
    · exact kept_segsOf t s h
    · exact (hn s h).1
  have hroot := rootOf_render (rootOf t) tr _ hk
  have hfix : (segsOf t).foldl (normStep (!rootOf t)) [] = (segsOf t).reverse := by
    have := foldl_normStep_fixed (!rootOf t) (splitSlash t.data)
      (fun s hs => not_mem_of_mem_splitSlash _ s hs)
    simpa [segsOf, normSegs] using this
  have e1 : segsOf ⟨render (rootOf t) (segsOf t ++ names) tr⟩
      = ((splitSlash (render (rootOf t) (segsOf t ++ names) tr)).foldl
          (normStep (!rootOf ⟨render (rootOf t) (segsOf t ++ names) tr⟩)) []).reverse := rfl
  rw [e1, hroot, foldl_splitSlash_render _ _ _ _ _ hk, List.foldl_append, hfix,
    foldl_normStep_names _ _ _ hn]
  simp

end path

/-! ## The files of the template composer -/

theorem exec_neverFails {ε : Type} (ops log : List Op) :
    exec (neverFails : List Op → Op → Option ε) ops log = (log ++ ops, .ok ()) := by
  induction ops generalizing log with
  | nil => simp [exec, async_pure_apply]
  | cons op ops ih =>
    rw [exec_cons_of_passes _ _ _ _ rfl, ih]
    simp

theorem join_plainFile (t rel : String) (h : IsPlainFile rel) :
    path.join [t, rel] = ⟨path.render (path.rootOf t) (path.segsOf t ++ relNames rel) false⟩ := by
  rw [path.join_plain t rel h.1 h.2.2.1]
  simp [h.2.2.2]

theorem relNames_eq_of_join_eq (t r1 r2 : String) (h1 : IsPlainFile r1) (h2 : IsPlainFile r2)
    (h : path.join [t, r1] = path.join [t, r2]) : relNames r1 = relNames r2 := by
  rw [join_plainFile t r1 h1, join_plainFile t r2 h2] at h
  have hk : ∀ (r : String), IsPlainFile r → ∀ s ∈ path.segsOf t ++ relNames r, '/' ∉ s := by
    intro r hr s hs
    rcases List.mem_append.1 hs with h | h
    · exact (path.kept_segsOf t s h).2.2
    · exact (hr.2.2.1 s h).1.2.2
  have := path.render_false_injective (path.rootOf t) _ _
    (by simpa using fun _ => h1.2.1) (by simpa using fun _ => h2.2.1) (hk r1 h1) (hk r2 h2)
    (congrArg String.data h)
  exact List.append_cancel_left this

theorem candidateFiles_plain : ∀ rel ∈ candidateFiles, IsPlainFile rel := by decide

theorem candidateFiles_relNames_injective :
    ∀ r1 ∈ candidateFiles, ∀ r2 ∈ candidateFiles, relNames r1 = relNames r2 → r1 = r2 := by
  decide

theorem generatedFiles_subset (answers : ProjectAnswers) :
    ∀ rel ∈ generatedFiles answers, rel ∈ candidateFiles := by
  rcases answers with ⟨pn, lang, slash⟩
  cases lang <;> cases slash <;>
    simp only [generatedFiles, fileExt, reduceCtorEq, if_true, if_false, Bool.false_eq_true] <;> decide

theorem join_join_plain (t dir file : String) (hd : IsPlainFile dir) (hf : IsPlainFile file)
    (hdf : IsPlainFile (dir ++ "/" ++ file))
    (hn : relNames (dir ++ "/" ++ file) = relNames dir ++ relNames file) :
    path.join [path.join [t, dir], file] = path.join [t, dir ++ "/" ++ file] := by
  rw [join_plainFile t dir hd, join_plainFile _ file hf, join_plainFile t _ hdf, hn,
    path.rootOf_render _ _ _ (by
      intro s hs
      rcases List.mem_append.1 hs with h | h
      · exact path.kept_segsOf t s h
      · exact (hd.2.2.1 s h).1),
    path.segsOf_render_append t _ _ hd.2.2.1, List.append_assoc]

theorem paths_templateOps (targetDir : String) (answers : ProjectAnswers) :
    (templateOps targetDir answers).map Op.path
      = (generatedFiles answers).map (fun rel => path.join [targetDir, rel]) := by
  have hjs := join_join_plain targetDir "src/commands" "ping.js" (by decide) (by decide)
    (by decide) (by decide)
  have hts := join_join_plain targetDir "src/commands" "ping.ts" (by decide) (by decide)
    (by decide) (by decide)
  have e1 : "src/commands" ++ "/" ++ "ping.js" = "src/commands/ping.js" := by decide
  have e2 : "src/commands" ++ "/" ++ "ping.ts" = "src/commands/ping.ts" := by decide
  have e3 : "ping" ++ ".js" = "ping.js" := by decide
  have e4 : "ping" ++ ".ts" = "ping.ts" := by decide
  have e5 : "src/commands/ping" ++ ".js" = "src/commands/ping.js" := by decide
  have e6 : "src/commands/ping" ++ ".ts" = "src/commands/ping.ts" := by decide
  rw [e1] at hjs
  rw [e2] at hts
  rcases answers with ⟨pn, lang, slash⟩
  cases lang <;> cases slash <;>
    simp [templateOps, generatedFiles, Op.path, fileExt, e3, e4, e5, e6, hjs, hts]

theorem createTemplateFiles_recorder (targetDir : String) (answers : ProjectAnswers) :
    createTemplateFiles recorder targetDir answers [] = (templateOps targetDir answers, .ok ()) := by
  unfold recorder
  rw [createTemplateFiles_recording, exec_neverFails]
  rfl

theorem isWrite_templateOps (targetDir : String) (answers : ProjectAnswers) :
    ∀ op ∈ templateOps targetDir answers, op.isWrite = true := by
  rcases answers with ⟨pn, lang, slash⟩
  cases lang <;> cases slash <;> simp [templateOps, Op.isWrite]

theorem mem_generatedFiles (answers : ProjectAnswers) (rel : String) :
    rel ∈ generatedFiles answers ↔
      (rel = "package.json" ∨ rel = ".env" ∨ rel = ".gitignore" ∨ rel = "README.md" ∨
        rel = "src/index" ++ fileExt answers ∨ rel = "src/commands/ping" ++ fileExt answers ∨
        rel = "src/events/ready" ++ fileExt answers ∨ rel = "src/utils/logger" ++ fileExt answers ∨
        (rel = "tsconfig.json" ∧ answers.language = Language.TypeScript) ∨
        (rel = "src/events/interactionCreate" ++ fileExt answers ∧
          answers.useSlashCommands = true)) := by
  have e1 : "src/index" ++ ".js" = "src/index.js" := by decide
  have e2 : "src/index" ++ ".ts" = "src/index.ts" := by decide
  rcases answers with ⟨pn, lang, slash⟩
  cases lang <;> cases slash <;> simp [generatedFiles, fileExt, e1, e2] <;> tauto

theorem nodup_generatedFiles (answers : ProjectAnswers) : (generatedFiles answers).Nodup := by
  rcases answers with ⟨pn, lang, slash⟩
  cases lang <;> cases slash <;>
    simp only [generatedFiles, fileExt, reduceCtorEq, if_true, if_false, Bool.false_eq_true] <;>
    decide

theorem join_candidate_injective (t r1 r2 : String) (h1 : r1 ∈ candidateFiles)
    (h2 : r2 ∈ candidateFiles) (h : path.join [t, r1] = path.join [t, r2]) : r1 = r2 :=
  candidateFiles_relNames_injective r1 h1 r2 h2
    (relNames_eq_of_join_eq t r1 r2 (candidateFiles_plain r1 h1) (candidateFiles_plain r2 h2) h)

theorem join_mem_written_iff (t : String) (answers : ProjectAnswers) (r : String)
    (hr : r ∈ candidateFiles) :
    path.join [t, r] ∈ (generatedFiles answers).map (fun rel => path.join [t, rel])
      ↔ r ∈ generatedFiles answers := by
  rw [List.mem_map]
  constructor
  · rintro ⟨rel, hrel, h⟩
    rw [← join_candidate_injective t rel r (generatedFiles_subset answers rel hrel) hr h]
    exact hrel
  · intro h
    exact ⟨r, h, rfl⟩

theorem join_config (t : String) :
    path.join [t, "config/"]
      = ⟨path.render (path.rootOf t) (path.segsOf t ++ ["config".data]) true⟩ := by
  rw [path.join_plain t "config/" (by decide) (by decide)]
  rfl

theorem candidate_not_under_config (t rel : String) (h : rel ∈ candidateFiles) :
    ¬ (path.join [t, "config/"]).data <+: (path.join [t, rel]).data := by
  have hp := candidateFiles_plain rel h
  rw [join_config, join_plainFile t rel hp]
  intro hpre
  have hk : ∀ (names : List (List Char)), (∀ n ∈ names, path.IsName n) →
      ∀ s ∈ path.segsOf t ++ names, '/' ∉ s := by
    intro names hn s hs
    rcases List.mem_append.1 hs with h | h
    · exact (path.kept_segsOf t s h).2.2
    · exact (hn s h).1.2.2
  have := path.segs_prefix_of_render_prefix (path.rootOf t) _ _
    (by simpa using fun _ => hp.2.1) (by simp) (hk _ hp.2.2.1) (hk _ (by decide)) hpre
  have h2 : ["config".data] <+: relNames rel := (List.prefix_append_right_inj _).1 this
  have h3 : ∀ r ∈ candidateFiles, ¬ ["config".data] <+: relNames r := by decide
  exact h3 rel h h2

theorem interaction_candidate (lang : Language) :
    "src/events/interactionCreate" ++ (if lang = Language.TypeScript then ".ts" else ".js")
      ∈ candidateFiles := by
  cases lang <;> decide

/-- C1: for every target directory and every configuration the calls of
`createTemplateFiles` (helpers included) all complete and all write a file;
the paths written are exactly `path.join(targetDir, rel)` for `rel` among
package.json, .env, .gitignore, README.md, src/index, src/commands/ping,
src/events/ready and src/utils/logger with the extension of the language,
tsconfig.json exactly under TypeScript and src/events/interactionCreate with
the extension exactly when slash commands are on; no path is written twice and
none lies under the config directory. -/
theorem createTemplateFiles_writes_exactly (targetDir : String) (answers : ProjectAnswers) :
    let ext := if answers.language = Language.TypeScript then ".ts" else ".js"
    let run := createTemplateFiles recorder targetDir answers []
    let written := run.1.map Op.path
    run.2 = .ok () ∧
    (∀ op ∈ run.1, op.isWrite = true) ∧
    (∀ p, p ∈ written ↔ ∃ rel, p = path.join [targetDir, rel] ∧
      (rel = "package.json" ∨ rel = ".env" ∨ rel = ".gitignore" ∨ rel = "README.md" ∨
        rel = "src/index" ++ ext ∨ rel = "src/commands/ping" ++ ext ∨
        rel = "src/events/ready" ++ ext ∨ rel = "src/utils/logger" ++ ext ∨
        (rel = "tsconfig.json" ∧ answers.language = Language.TypeScript) ∨
        (rel = "src/events/interactionCreate" ++ ext ∧ answers.useSlashCommands = true))) ∧
    written.Nodup ∧
    (path.join [targetDir, "tsconfig.json"] ∈ written ↔
      answers.language = Language.TypeScript) ∧
    (path.join [targetDir, "src/events/interactionCreate" ++ ext] ∈ written ↔
      answers.useSlashCommands = true) ∧
    (∀ p ∈ written, ¬ (path.join [targetDir, "config/"]).data <+: p.data) := by
  intro ext run written
  have hrun : run = (templateOps targetDir answers, .ok ()) :=
    createTemplateFiles_recorder targetDir answers
  have hw : written = (generatedFiles answers).map (fun rel => path.join [targetDir, rel]) := by
    show run.1.map Op.path = _
    rw [hrun, paths_templateOps]
  refine ⟨by rw [hrun], ?_, ?_, ?_, ?_, ?_, ?_⟩
  · rw [hrun]
    exact isWrite_templateOps targetDir answers
  · intro p
    rw [hw, List.mem_map]
    constructor
    · rintro ⟨rel, hrel, rfl⟩
      exact ⟨rel, rfl, (mem_generatedFiles answers rel).1 hrel⟩
    · rintro ⟨rel, rfl, h⟩
      exact ⟨rel, (mem_generatedFiles answers rel).2 h, rfl⟩
  · rw [hw]
    refine List.Nodup.map_on ?_ (nodup_generatedFiles answers)
    intro r1 h1 r2 h2 h
    exact join_candidate_injective targetDir r1 r2 (generatedFiles_subset answers r1 h1)
      (generatedFiles_subset answers r2 h2) h
  · rw [hw, join_mem_written_iff targetDir answers "tsconfig.json" (by decide),
      mem_generatedFiles]
    rcases answers with ⟨pn, lang, slash⟩
    cases lang <;> simp [fileExt]
  · have hc : "src/events/interactionCreate" ++ ext ∈ candidateFiles :=
      interaction_candidate answers.language
    rw [hw, join_mem_written_iff targetDir answers _ hc, mem_generatedFiles]
    rcases answers with ⟨pn, lang, slash⟩
    cases lang <;> cases slash <;> simp [fileExt, ext]
  · intro p hp
    rw [hw, List.mem_map] at hp
    obtain ⟨rel, hrel, rfl⟩ := hp
    exact candidate_not_under_config targetDir rel (generatedFiles_subset answers rel hrel)

/-! ## Occurrences of a text in generated content -/

/-- A text that avoids a character occurs around it only on one of its sides. -/
theorem infix_of_infix_append_cons (w a b : List Char) (c : Char) (hc : c ∉ w)
    (h : w <:+: a ++ c :: b) : w <:+: a ∨ w <:+: b := by
  induction a with
  | nil =>
    rcases List.infix_cons_iff.1 h with hp | hi
    · cases w with
      | nil => exact Or.inl List.nil_infix
      | cons x xs =>
        have hx : x = c := by
          obtain ⟨r, hr⟩ := hp
          simp at hr
          exact hr.1
        exact absurd (by simp [hx]) hc
    · exact Or.inr hi
  | cons x xs ih =>
    rw [List.cons_append] at h
    rcases List.infix_cons_iff.1 h with hp | hi
    · obtain ⟨r, hr⟩ := hp
      have hcw : c ∈ w ∨ w <+: x :: xs := by
        rw [← List.cons_append] at hr
        rcases List.append_eq_append_iff.1 hr with ⟨a', h1, h2⟩ | ⟨c', h1, h2⟩
        · exact Or.inr ⟨a', h1.symm⟩
        · cases c' with
          | nil =>
            simp at h1
            exact Or.inr ⟨[], by simp [h1]⟩
          | cons y ys =>
            simp at h2
            exact Or.inl (by rw [h1, h2.1]; simp)
      rcases hcw with h1 | h1
      · exact absurd h1 hc
      · exact Or.inl h1.isInfix
    · rcases ih hi with h1 | h1
      · exact Or.inl (List.infix_cons h1)
      · exact Or.inr h1

/-! ## The manifest -/

/-- C4: the manifest `createTemplateFiles` writes to package.json.  Under
TypeScript `main` is dist/index.js, `scripts` has a `build` entry and
`devDependencies` holds typescript, ts-node and @types/node; under JavaScript
`main` is src/index.js and none of these four keys is present; in both
variants `dependencies` holds discord.js and dotenv, and the object is the same
whatever `useSlashCommands` is. -/
theorem packageJson_by_language (targetDir : String) (answers : ProjectAnswers) :
    let manifest := packageJson targetDir answers
    Op.writeJSON (path.join [targetDir, "package.json"]) manifest 2
        ∈ (createTemplateFiles recorder targetDir answers []).1 ∧
    (answers.language = Language.TypeScript →
      manifest.get? "main" = some (Json.str "dist/index.js") ∧
      "build" ∈ manifest.keysAt "scripts" ∧
      "typescript" ∈ manifest.keysAt "devDependencies" ∧
      "ts-node" ∈ manifest.keysAt "devDependencies" ∧
      "@types/node" ∈ manifest.keysAt "devDependencies") ∧
    (answers.language = Language.JavaScript →
      manifest.get? "main" = some (Json.str "src/index.js") ∧
      "build" ∉ manifest.keysAt "scripts" ∧
      "typescript" ∉ manifest.keysAt "devDependencies" ∧
      "ts-node" ∉ manifest.keysAt "devDependencies" ∧
      "@types/node" ∉ manifest.keysAt "devDependencies") ∧
    "discord.js" ∈ manifest.keysAt "dependencies" ∧
    "dotenv" ∈ manifest.keysAt "dependencies" ∧
    (∀ flag : Bool,
      packageJson targetDir { answers with useSlashCommands := flag } = manifest) := by
  intro manifest
  refine ⟨?_, ?_, ?_, ?_, ?_, ?_⟩
  · rw [createTemplateFiles_recorder]
    simp [templateOps, manifest]
  · intro h
    simp [manifest, packageJson, Json.get?, Json.keysAt, Json.keys, h]
  · intro h
    simp [manifest, packageJson, Json.get?, Json.keysAt, Json.keys, h]
  · simp [manifest, packageJson, Json.get?, Json.keysAt, Json.keys]
  · simp [manifest, packageJson, Json.get?, Json.keysAt, Json.keys]
  · intro flag
    rfl

/-! ## Cross references between generated files -/

theorem generateMainContent_language (answers : ProjectAnswers) :
    generateMainContent answers = generateMainContent ⟨none, answers.language, false⟩ := rfl

theorem readyContent_language (answers : ProjectAnswers) :
    readyContent answers = readyContent ⟨none, answers.language, false⟩ := rfl

theorem interactionContent_language (answers : ProjectAnswers) :
    interactionContent answers = interactionContent ⟨none, answers.language, false⟩ := rfl

theorem loggerContent_language (answers : ProjectAnswers) :
    loggerContent answers = loggerContent ⟨none, answers.language, false⟩ := rfl

theorem pingCommandContent_language (answers : ProjectAnswers) :
    pingCommandContent answers = pingCommandContent ⟨none, answers.language, false⟩ := rfl

theorem references_use_extension (lang : Language) :
    occursIn ("import \x7b logger \x7d from './utils/logger" ++
        (if lang = Language.TypeScript then ".ts" else ".js") ++ "';")
      (generateMainContent ⟨none, lang, false⟩) ∧
    occursIn ("readdirSync(commandsPath).filter(file => file.endsWith('" ++
        (if lang = Language.TypeScript then ".ts" else ".js") ++ "'));")
      (generateMainContent ⟨none, lang, false⟩) ∧
    occursIn ("readdirSync(eventsPath).filter(file => file.endsWith('" ++
        (if lang = Language.TypeScript then ".ts" else ".js") ++ "'));")
      (generateMainContent ⟨none, lang, false⟩) ∧
    occursIn ("import \x7b logger \x7d from '../utils/logger" ++
        (if lang = Language.TypeScript then ".ts" else ".js") ++ "';")
      (readyContent ⟨none, lang, false⟩) ∧
    occursIn ("import \x7b logger \x7d from '../utils/logger" ++
        (if lang = Language.TypeScript then ".ts" else ".js") ++ "';")
      (interactionContent ⟨none, lang, false⟩) := by
  cases lang <;> decide!

theorem no_reference_with_other_extension (lang : Language) :
    ∀ content ∈ [generateMainContent ⟨none, lang, false⟩, pingCommandContent ⟨none, lang, false⟩,
        readyContent ⟨none, lang, false⟩, interactionContent ⟨none, lang, false⟩,
        loggerContent ⟨none, lang, false⟩],
      ∀ module ∈ ["index", "ping", "ready", "interactionCreate", "logger"],
        ¬ occursIn (module ++ (if lang = Language.TypeScript then ".js" else ".ts")) content := by
  cases lang <;> decide!

theorem no_ts_in_javascript_sources :
    ∀ content ∈ [generateMainContent ⟨none, .JavaScript, false⟩,
        pingCommandContent ⟨none, .JavaScript, false⟩, readyContent ⟨none, .JavaScript, false⟩,
        interactionContent ⟨none, .JavaScript, false⟩, loggerContent ⟨none, .JavaScript, false⟩],
      ¬ occursIn ".ts" content := by
  decide!

theorem join_ping (targetDir : String) (lang : Language) :
    path.join [path.join [targetDir, "src/commands"],
        "ping" ++ (if lang = Language.TypeScript then ".ts" else ".js")]
      = path.join [targetDir,
        "src/commands/ping" ++ (if lang = Language.TypeScript then ".ts" else ".js")] := by
  cases lang
  · exact join_join_plain targetDir "src/commands" "ping.js" (by decide) (by decide)
      (by decide) (by decide)
  · exact join_join_plain targetDir "src/commands" "ping.ts" (by decide) (by decide)
      (by decide) (by decide)

/-- C2: the references between generated files carry the extension of the
chosen language.  The entry point imports `./utils/logger` and filters command
and event files with that extension, the ready and interactionCreate handlers
both import `../utils/logger` with it, and the entry point, logger, ready
handler, ping command and interactionCreate handler are written to files with
the same extension; no source file names one of the generated modules with the other
extension, and under JavaScript no source file contains `.ts` at all. -/
theorem references_follow_language (targetDir : String) (answers : ProjectAnswers) :
    let ext := if answers.language = Language.TypeScript then ".ts" else ".js"
    let other := if answers.language = Language.TypeScript then ".js" else ".ts"
    let written := (createTemplateFiles recorder targetDir answers []).1
    let sources := [generateMainContent answers, pingCommandContent answers, readyContent answers,
      interactionContent answers, loggerContent answers]
    occursIn ("import \x7b logger \x7d from './utils/logger" ++ ext ++ "';")
      (generateMainContent answers) ∧
    occursIn ("readdirSync(commandsPath).filter(file => file.endsWith('" ++ ext ++ "'));")
      (generateMainContent answers) ∧
    occursIn ("readdirSync(eventsPath).filter(file => file.endsWith('" ++ ext ++ "'));")
      (generateMainContent answers) ∧
    occursIn ("import \x7b logger \x7d from '../utils/logger" ++ ext ++ "';")
      (readyContent answers) ∧
    occursIn ("import \x7b logger \x7d from '../utils/logger" ++ ext ++ "';")
      (interactionContent answers) ∧
    Op.writeFile (path.join [targetDir, "src/index" ++ ext]) (generateMainContent answers)
      ∈ written ∧
    Op.writeFile (path.join [targetDir, "src/utils/logger" ++ ext]) (loggerContent answers)
      ∈ written ∧
    Op.writeFile (path.join [targetDir, "src/events/ready" ++ ext]) (readyContent answers)
      ∈ written ∧
    Op.writeFile (path.join [targetDir, "src/commands/ping" ++ ext]) (pingCommandContent answers)
      ∈ written ∧
    (answers.useSlashCommands = true →
      Op.writeFile (path.join [targetDir, "src/events/interactionCreate" ++ ext])
        (interactionContent answers) ∈ written) ∧
    (∀ content ∈ sources, ∀ module ∈ ["index", "ping", "ready", "interactionCreate", "logger"],
      ¬ occursIn (module ++ other) content) ∧
    (answers.language = Language.JavaScript → ∀ content ∈ sources, ¬ occursIn ".ts" content) := by
  intro ext other written sources
  have hw : written = templateOps targetDir answers := by
    show (createTemplateFiles recorder targetDir answers []).1 = _
    rw [createTemplateFiles_recorder]
  have href := references_use_extension answers.language
  have e1 : "src/index" ++ ".js" = "src/index.js" := by decide
  have e2 : "src/index" ++ ".ts" = "src/index.ts" := by decide
  refine ⟨href.1, href.2.1, href.2.2.1, href.2.2.2.1, href.2.2.2.2, ?_, ?_, ?_, ?_, ?_, ?_, ?_⟩
  · rw [hw]
    by_cases h : answers.language = Language.TypeScript <;>
      simp [templateOps, ext, h, e1, e2]
  · rw [hw]
    simp [templateOps, ext, fileExt]
  · rw [hw]
    simp [templateOps, ext, fileExt]
  · rw [hw]
    simp only [templateOps, ext, join_ping targetDir answers.language]
    simp
  · intro h
    rw [hw]
    simp [templateOps, ext, fileExt, h]
  · exact no_reference_with_other_extension answers.language
  · intro h
    have := no_ts_in_javascript_sources
    show ∀ content ∈ [generateMainContent answers, pingCommandContent answers,
      readyContent answers, interactionContent answers, loggerContent answers], _
    rw [generateMainContent_language, pingCommandContent_language, readyContent_language,
      interactionContent_language, loggerContent_language, h]
    exact this

/-! ## No reference to a handler that is not generated -/

theorem basename_empty : path.basename "" = "" := by decide

theorem data_foldl_append (acc : String) (pieces : List String) :
    (pieces.foldl (fun a b => a ++ b) acc).data
      = acc.data ++ (pieces.foldl (fun a b => a ++ b) "").data := by
  induction pieces using List.reverseRecOn with
  | nil => simp
  | append_singleton ps p ih =>
    rw [List.foldl_append, List.foldl_append]
    simp only [List.foldl_cons, List.foldl_nil, String.data_append, ih, List.append_assoc]

theorem generateReadmeContent_pieces (answers : ProjectAnswers) :
    ∃ pieces : List String, ∀ targetDir : String,
      generateReadmeContent targetDir answers
        = pieces.foldl (fun a b => a ++ b) ("# " ++ path.basename targetDir) :=
  ⟨[_, _, _, _, _, _, _, _, _, _], fun _ => rfl⟩

/-- The README is its title line around the project name, followed by text
that does not depend on the target directory. -/
theorem generateReadmeContent_data (targetDir : String) (answers : ProjectAnswers) :
    (generateReadmeContent targetDir answers).data
      = '#' :: ' ' :: ((path.basename targetDir).data ++
          (generateReadmeContent "" answers).data.drop 2) := by
  obtain ⟨pieces, h⟩ := generateReadmeContent_pieces answers
  have h1 : ∀ n : String, ("# " ++ n).data = '#' :: ' ' :: n.data := fun n => rfl
  rw [h targetDir, h "", data_foldl_append, data_foldl_append ("# " ++ path.basename ""), h1, h1,
    basename_empty]
  rfl

theorem mem_allTexts (ops : List Op) (op : Op) (text : String) (hop : op ∈ ops)
    (ht : text ∈ op.texts) : text ∈ allTexts ops := by
  induction ops with
  | nil => simp at hop
  | cons o os ih =>
    rcases List.mem_cons.1 hop with h | h
    · subst h
      exact List.mem_append_left _ ht
    · exact List.mem_append_right _ (ih h)

theorem allTexts_templateOps (targetDir : String) (answers : ProjectAnswers)
    (hflag : answers.useSlashCommands = false) :
    allTexts (templateOps targetDir answers)
      = "name" :: path.basename targetDir ::
          (textsBeforeReadme answers.language ++
            generateReadmeContent targetDir answers :: textsAfterReadme answers.language) := by
  rcases answers with ⟨pn, lang, slash⟩
  subst hflag
  cases lang <;> rfl

theorem fixed_texts_without_interaction (lang : Language) :
    (∀ text ∈ "name" :: (textsBeforeReadme lang ++ textsAfterReadme lang),
      ¬ occursIn "interactionCreate" text) ∧
    (generateReadmeContent "" ⟨none, lang, false⟩).data.drop 2
      = '\n' :: (generateReadmeContent "" ⟨none, lang, false⟩).data.drop 3 ∧
    ¬ "interactionCreate".data <:+: (generateReadmeContent "" ⟨none, lang, false⟩).data.drop 3 := by
  cases lang <;> decide!

theorem readme_body (lang : Language) (slash : Bool) :
    (generateReadmeContent "" ⟨none, lang, slash⟩).data.drop 2
      = '\n' :: (generateReadmeContent "" ⟨none, lang, slash⟩).data.drop 3 ∧
    "   TOKEN=your-bot-token-here\n".data
      <:+: (generateReadmeContent "" ⟨none, lang, slash⟩).data.drop 3 ∧
    ¬ "BOT_TOKEN".data <:+: (generateReadmeContent "" ⟨none, lang, slash⟩).data.drop 3 := by
  cases lang <;> cases slash <;> decide!

theorem texts_packageJson (targetDir : String) (answers : ProjectAnswers) :
    (packageJson targetDir answers).texts
      = "name" :: path.basename targetDir ::
          (packageJson "" ⟨none, answers.language, false⟩).texts.drop 2 := by
  rcases answers with ⟨pn, lang, slash⟩
  cases lang <;> rfl

theorem readme_title_and_body (targetDir : String) (answers : ProjectAnswers) :
    generateReadmeContent targetDir answers
      = "# " ++ path.basename targetDir ++ "\n" ++
          String.mk ((generateReadmeContent ""
            ⟨none, answers.language, answers.useSlashCommands⟩).data.drop 3) := by
  have hbody := readme_body answers.language answers.useSlashCommands
  have hreadme : generateReadmeContent "" answers
      = generateReadmeContent "" ⟨none, answers.language, answers.useSlashCommands⟩ := rfl
  apply String.ext
  rw [generateReadmeContent_data, hreadme, hbody.1]
  have h1 : ∀ (n b : String), ("# " ++ n ++ "\n" ++ b).data = '#' :: ' ' :: (n.data ++ '\n' :: b.data) :=
    fun n b => by
      rw [String.data_append, String.data_append, String.data_append]
      show ['#', ' '] ++ n.data ++ ['\n'] ++ b.data = _
      simp
  rw [h1]

/-- The calls of `createTemplateFiles` without slash commands, one by one. -/
theorem mem_templateOps_of_flag (targetDir : String) (answers : ProjectAnswers) (op : Op)
    (hflag : answers.useSlashCommands = false) (h : op ∈ templateOps targetDir answers) :
    op = Op.writeJSON (path.join [targetDir, "package.json"]) (packageJson targetDir answers) 2 ∨
    op = Op.writeFile (path.join [targetDir, "README.md"])
      (generateReadmeContent targetDir answers) ∨
    (answers.language = Language.TypeScript ∧
      op = Op.writeJSON (path.join [targetDir, "tsconfig.json"]) tsConfig 2) ∨
    ∃ p content, op = Op.writeFile p content ∧
      content ∈ [generateMainContent answers, "BOT_TOKEN=your-bot-token-here",
        "node_modules/\n.env\ndist/\n", pingCommandContent answers, loggerContent answers,
        readyContent answers] := by
  unfold templateOps at h
  rw [hflag] at h
  by_cases hl : answers.language = Language.TypeScript
  · simp only [hl, Bool.false_eq_true, if_true, if_false, List.append_nil, List.mem_append,
      List.mem_cons, List.mem_singleton, List.not_mem_nil, or_false] at h
    rcases h with ((h | h | h | h | h) | h) | h | h | h
    · exact Or.inl h
    · exact Or.inr (Or.inr (Or.inr ⟨_, _, h, by simp⟩))
    · exact Or.inr (Or.inr (Or.inr ⟨_, _, h, by simp⟩))
    · exact Or.inr (Or.inr (Or.inr ⟨_, _, h, by simp⟩))
    · exact Or.inr (Or.inl h)
    · exact Or.inr (Or.inr (Or.inl ⟨hl, h⟩))
    · exact Or.inr (Or.inr (Or.inr ⟨_, _, h, by simp⟩))
    · exact Or.inr (Or.inr (Or.inr ⟨_, _, h, by simp⟩))
    · exact Or.inr (Or.inr (Or.inr ⟨_, _, h, by simp⟩))
  · simp only [hl, Bool.false_eq_true, if_false, List.append_nil, List.mem_append,
      List.mem_cons, List.mem_singleton, List.not_mem_nil, or_false] at h
    rcases h with (h | h | h | h | h) | h | h | h
    · exact Or.inl h
    · exact Or.inr (Or.inr (Or.inr ⟨_, _, h, by simp⟩))
    · exact Or.inr (Or.inr (Or.inr ⟨_, _, h, by simp⟩))
    · exact Or.inr (Or.inr (Or.inr ⟨_, _, h, by simp⟩))
    · exact Or.inr (Or.inl h)
    · exact Or.inr (Or.inr (Or.inr ⟨_, _, h, by simp⟩))
    · exact Or.inr (Or.inr (Or.inr ⟨_, _, h, by simp⟩))
    · exact Or.inr (Or.inr (Or.inr ⟨_, _, h, by simp⟩))
theorem readme_occurrence (targetDir : String) (lang : Language) (pn : Option String)
    (h : occursIn "interactionCreate" (generateReadmeContent targetDir ⟨pn, lang, false⟩)) :
    occursIn "interactionCreate" (path.basename targetDir) := by
  have hfix := fixed_texts_without_interaction lang
  unfold occursIn at h ⊢
  rw [generateReadmeContent_data] at h
  have hreadme : generateReadmeContent "" ⟨pn, lang, false⟩
      = generateReadmeContent "" ⟨none, lang, false⟩ := rfl
  rw [hreadme, hfix.2.1] at h
  rcases infix_of_infix_append_cons "interactionCreate".data ['#'] _ ' ' (by decide) h with h1 | h1
  · exact absurd h1 (by decide)
  · rcases infix_of_infix_append_cons _ _ _ '\n' (by decide) h1 with h2 | h2
    · exact h2
    · exact absurd h2 hfix.2.2

/-- C3: with `useSlashCommands` false and either language, no file
src/events/interactionCreate.js or src/events/interactionCreate.ts is written,
and nothing the generator puts into a file refers to interactionCreate,
whatever the target directory.  The entry point, the ping command, the ready
handler and the logger never contain the word.  Of all the texts written (file
contents, keys and strings of the JSON files) the only ones that can contain it
are the two that repeat the project name: the value of `name` in package.json,
which is the project name, and the README, which is the title line with the
project name followed by a body without the word.  So a text written anywhere
but to package.json or README.md is free of it, and when the project name does
not contain it, so is every text. -/
theorem no_interaction_reference (targetDir : String) (answers : ProjectAnswers)
    (hflag : answers.useSlashCommands = false) :
    let written := (createTemplateFiles recorder targetDir answers []).1
    let name := path.basename targetDir
    path.join [targetDir, "src/events/interactionCreate.js"] ∉ written.map Op.path ∧
    path.join [targetDir, "src/events/interactionCreate.ts"] ∉ written.map Op.path ∧
    ¬ occursIn "interactionCreate" (generateMainContent answers) ∧
    ¬ occursIn "interactionCreate" (pingCommandContent answers) ∧
    ¬ occursIn "interactionCreate" (readyContent answers) ∧
    ¬ occursIn "interactionCreate" (loggerContent answers) ∧
    (∀ op ∈ written, ∀ text ∈ op.texts,
      ¬ occursIn "interactionCreate" text ∨
      (op.path = path.join [targetDir, "package.json"] ∧ text = name) ∨
      (op.path = path.join [targetDir, "README.md"] ∧
        ∃ body, text = "# " ++ name ++ "\n" ++ body ∧ ¬ occursIn "interactionCreate" body)) ∧
    (∀ op ∈ written, op.path ≠ path.join [targetDir, "package.json"] →
      op.path ≠ path.join [targetDir, "README.md"] →
      ∀ text ∈ op.texts, ¬ occursIn "interactionCreate" text) ∧
    (¬ occursIn "interactionCreate" name →
      ∀ op ∈ written, ∀ text ∈ op.texts, ¬ occursIn "interactionCreate" text) := by
  intro written name
  have hw : written = templateOps targetDir answers := by
    show (createTemplateFiles recorder targetDir answers []).1 = _
    rw [createTemplateFiles_recorder]
  have hgen : ∀ r ∈ ["src/events/interactionCreate.js", "src/events/interactionCreate.ts"],
      r ∉ generatedFiles answers := by
    rcases answers with ⟨pn, lang, slash⟩
    subst hflag
    cases lang <;>
      simp only [generatedFiles, fileExt, reduceCtorEq, if_true, if_false, Bool.false_eq_true] <;>
      decide
  have hfix := fixed_texts_without_interaction answers.language
  have hclean : ∀ text ∈ [generateMainContent answers, "BOT_TOKEN=your-bot-token-here",
      "node_modules/\n.env\ndist/\n", pingCommandContent answers, loggerContent answers,
      readyContent answers], ¬ occursIn "interactionCreate" text := by
    intro text htext
    apply hfix.1 text
    rw [generateMainContent_language, pingCommandContent_language, loggerContent_language,
      readyContent_language] at htext
    apply List.mem_cons_of_mem
    rcases List.mem_cons.1 htext with e | htext
    · exact List.mem_append_left _ (List.mem_append_right _ (e ▸ List.mem_cons_self _ _))
    rcases List.mem_cons.1 htext with e | htext
    · exact List.mem_append_left _ (List.mem_append_right _
        (List.mem_cons_of_mem _ (e ▸ List.mem_cons_self _ _)))
    rcases List.mem_cons.1 htext with e | htext
    · exact List.mem_append_left _ (List.mem_append_right _
        (List.mem_cons_of_mem _ (List.mem_cons_of_mem _ (e ▸ List.mem_cons_self _ _))))
    rcases List.mem_cons.1 htext with e | htext
    · exact List.mem_append_right _ (List.mem_append_right _ (e ▸ List.mem_cons_self _ _))
    rcases List.mem_cons.1 htext with e | htext
    · exact List.mem_append_right _ (List.mem_append_right _
        (List.mem_cons_of_mem _ (e ▸ List.mem_cons_self _ _)))
    rcases List.mem_cons.1 htext with e | htext
    · exact List.mem_append_right _ (List.mem_append_right _
        (List.mem_cons_of_mem _ (List.mem_cons_of_mem _ (e ▸ List.mem_cons_self _ _))))
    · exact absurd htext (List.not_mem_nil _)
  have hmain : ∀ op ∈ written, ∀ text ∈ op.texts,
      ¬ occursIn "interactionCreate" text ∨
      (op.path = path.join [targetDir, "package.json"] ∧ text = name) ∨
      (op.path = path.join [targetDir, "README.md"] ∧
        ∃ body, text = "# " ++ name ++ "\n" ++ body ∧ ¬ occursIn "interactionCreate" body) := by
    intro op hop text htext
    rw [hw] at hop
    rcases mem_templateOps_of_flag targetDir answers op hflag hop with h | h | h | h
    · subst h
      have ht : text ∈ (packageJson targetDir answers).texts := htext
      rw [texts_packageJson] at ht
      rcases List.mem_cons.1 ht with e | e
      · exact Or.inl (e ▸ hfix.1 "name" (by simp))
      · rcases List.mem_cons.1 e with e | e
        · exact Or.inr (Or.inl ⟨rfl, e⟩)
        · exact Or.inl (hfix.1 text (List.mem_cons_of_mem _
            (List.mem_append_left _ (List.mem_append_left _ e))))
    · subst h
      have ht : text = generateReadmeContent targetDir answers := by
        simpa [Op.texts] using htext
      refine Or.inr (Or.inr ⟨rfl, _, ht.trans (readme_title_and_body targetDir answers), ?_⟩)
      rw [hflag]
      exact hfix.2.2
    · obtain ⟨hl, rfl⟩ := h
      have ht : text ∈ tsConfig.texts := htext
      refine Or.inl (hfix.1 text (List.mem_cons_of_mem _
        (List.mem_append_right _ (List.mem_append_left _ ?_))))
      rw [if_pos hl]
      exact ht
    · obtain ⟨p, content, rfl, hc⟩ := h
      have ht : text = content := by simpa [Op.texts] using htext
      exact Or.inl (ht ▸ hclean content hc)
  refine ⟨?_, ?_, hclean _ (by simp), hclean _ (by simp), hclean _ (by simp),
    hclean _ (by simp), hmain, ?_, ?_⟩
  · rw [hw, paths_templateOps, join_mem_written_iff targetDir answers _ (by decide)]
    exact hgen _ (by simp)
  · rw [hw, paths_templateOps, join_mem_written_iff targetDir answers _ (by decide)]
    exact hgen _ (by simp)
  · intro op hop hp1 hp2 text htext
    rcases hmain op hop text htext with h | h | h
    · exact h
    · exact absurd h.1 hp1
    · exact absurd h.1 hp2
  · intro hname op hop text htext hocc
    rcases hmain op hop text htext with h | h | h
    · exact h hocc
    · exact hname (by rw [h.2] at hocc; exact hocc)
    · obtain ⟨_, body, hb, _⟩ := h
      rw [hw] at hop
      rcases mem_templateOps_of_flag targetDir answers op hflag hop with e | e | e | e
      · subst e
        have ht : text ∈ (packageJson targetDir answers).texts := htext
        rw [texts_packageJson] at ht
        rcases List.mem_cons.1 ht with e | e
        · exact hfix.1 "name" (by simp) (e ▸ hocc)
        · rcases List.mem_cons.1 e with e | e
          · exact hname (by rw [e] at hocc; exact hocc)
          · exact hfix.1 text (List.mem_cons_of_mem _
              (List.mem_append_left _ (List.mem_append_left _ e))) hocc
      · subst e
        have ht : text = generateReadmeContent targetDir answers := by
          simpa [Op.texts] using htext
        rcases answers with ⟨pn, lang, slash⟩
        subst hflag
        exact hname (readme_occurrence targetDir lang pn (ht ▸ hocc))
      · obtain ⟨hl, rfl⟩ := e
        have ht : text ∈ tsConfig.texts := htext
        refine hfix.1 text (List.mem_cons_of_mem _
          (List.mem_append_right _ (List.mem_append_left _ ?_))) hocc
        rw [if_pos hl]
        exact ht
      · obtain ⟨p, content, rfl, hc⟩ := e
        have ht : text = content := by simpa [Op.texts] using htext
        exact hclean content hc (ht ▸ hocc)

/-- C3 at a concrete input whose project name itself contains the word: a
JavaScript project without slash commands in /home/u/interactionCreate-bot. -/
theorem no_interaction_reference_witness :
    (⟨none, Language.JavaScript, false⟩ : ProjectAnswers).useSlashCommands = false ∧
    occursIn "interactionCreate" (path.basename "/home/u/interactionCreate-bot") ∧
    (let written := (createTemplateFiles recorder "/home/u/interactionCreate-bot"
        ⟨none, Language.JavaScript, false⟩ []).1
    let name := path.basename "/home/u/interactionCreate-bot"
    path.join ["/home/u/interactionCreate-bot", "src/events/interactionCreate.js"]
      ∉ written.map Op.path ∧
    path.join ["/home/u/interactionCreate-bot", "src/events/interactionCreate.ts"]
      ∉ written.map Op.path ∧
    ¬ occursIn "interactionCreate" (generateMainContent ⟨none, Language.JavaScript, false⟩) ∧
    ¬ occursIn "interactionCreate" (pingCommandContent ⟨none, Language.JavaScript, false⟩) ∧
    ¬ occursIn "interactionCreate" (readyContent ⟨none, Language.JavaScript, false⟩) ∧
    ¬ occursIn "interactionCreate" (loggerContent ⟨none, Language.JavaScript, false⟩) ∧
    (∀ op ∈ written, ∀ text ∈ op.texts,
      ¬ occursIn "interactionCreate" text ∨
      (op.path = path.join ["/home/u/interactionCreate-bot", "package.json"] ∧ text = name) ∨
      (op.path = path.join ["/home/u/interactionCreate-bot", "README.md"] ∧
        ∃ body, text = "# " ++ name ++ "\n" ++ body ∧ ¬ occursIn "interactionCreate" body)) ∧
    (∀ op ∈ written, op.path ≠ path.join ["/home/u/interactionCreate-bot", "package.json"] →
      op.path ≠ path.join ["/home/u/interactionCreate-bot", "README.md"] →
      ∀ text ∈ op.texts, ¬ occursIn "interactionCreate" text) ∧
    (¬ occursIn "interactionCreate" name →
      ∀ op ∈ written, ∀ text ∈ op.texts, ¬ occursIn "interactionCreate" text)) :=
  ⟨rfl, by decide,
    no_interaction_reference "/home/u/interactionCreate-bot" ⟨none, Language.JavaScript, false⟩ rfl⟩

/-! ## The token key -/

theorem main_reads_token (lang : Language) :
    occursIn "client.login(process.env.TOKEN);" (generateMainContent ⟨none, lang, false⟩) ∧
    ¬ occursIn "BOT_TOKEN" (generateMainContent ⟨none, lang, false⟩) := by
  cases lang <;> decide!

/-- C9, what the code does: the generated .env defines BOT_TOKEN and nothing
else, while the generated entry point logs in with `process.env.TOKEN` and
never mentions BOT_TOKEN; the generated README tells the user to define TOKEN
as well. -/
theorem token_key_mismatch (targetDir : String) (answers : ProjectAnswers) :
    let written := (createTemplateFiles recorder targetDir answers []).1
    Op.writeFile (path.join [targetDir, ".env"]) "BOT_TOKEN=your-bot-token-here" ∈ written ∧
    occursIn "client.login(process.env.TOKEN);" (generateMainContent answers) ∧
    ¬ occursIn "BOT_TOKEN" (generateMainContent answers) ∧
    occursIn "   TOKEN=your-bot-token-here\n" (generateReadmeContent targetDir answers) := by
  intro written
  have hw : written = templateOps targetDir answers := by
    show (createTemplateFiles recorder targetDir answers []).1 = _
    rw [createTemplateFiles_recorder]
  have hmain := main_reads_token answers.language
  refine ⟨?_, hmain.1, hmain.2, ?_⟩
  · rw [hw]
    simp [templateOps]
  · have hbody := readme_body answers.language answers.useSlashCommands
    unfold occursIn
    rw [generateReadmeContent_data]
    have hreadme : generateReadmeContent "" answers
        = generateReadmeContent "" ⟨none, answers.language, answers.useSlashCommands⟩ := rfl
    rw [hreadme, hbody.1]
    obtain ⟨s, u, hsu⟩ := hbody.2.1
    refine ⟨'#' :: ' ' :: ((path.basename targetDir).data ++ '\n' :: s), u, ?_⟩
    rw [← hsu]
    simp

/-! ## The last segment and the parent of a path -/

namespace path

theorem dropWhile_slash_append (a b : List Char) (ha : a ≠ []) (hs : '/' ∉ a) :
    (a ++ b).dropWhile (fun c => c = '/') = a ++ b := by
  cases a with
  | nil => exact absurd rfl ha
  | cons x xs =>
    have hx : x ≠ '/' := fun e => hs (by simp [e])
    simp [List.dropWhile_cons, hx]

theorem takeWhile_not_slash (a : List Char) (hs : '/' ∉ a) :
    a.takeWhile (fun c => c ≠ '/') = a := by
  rw [List.takeWhile_eq_self_iff]
  intro x hx
  have : x ≠ '/' := fun e => hs (e ▸ hx)
  simpa using this

theorem takeWhile_not_slash_append (a b : List Char) (hs : '/' ∉ a) :
    (a ++ '/' :: b).takeWhile (fun c => c ≠ '/') = a := by
  induction a with
  | nil => simp
  | cons x xs ih =>
    have hx : x ≠ '/' := fun e => hs (by simp [e])
    have hxs : '/' ∉ xs := fun e => hs (List.mem_cons_of_mem _ e)
    simpa [List.takeWhile_cons, hx] using ih hxs

theorem dropWhile_not_slash (a : List Char) (hs : '/' ∉ a) :
    a.dropWhile (fun c => c ≠ '/') = [] := by
  induction a with
  | nil => rfl
  | cons x xs ih =>
    have hx : x ≠ '/' := fun e => hs (by simp [e])
    have hxs : '/' ∉ xs := fun e => hs (List.mem_cons_of_mem _ e)
    simpa [List.dropWhile_cons, hx] using ih hxs

theorem dropWhile_not_slash_append (a b : List Char) (hs : '/' ∉ a) :
    (a ++ '/' :: b).dropWhile (fun c => c ≠ '/') = '/' :: b := by
  induction a with
  | nil => simp
  | cons x xs ih =>
    have hx : x ≠ '/' := fun e => hs (by simp [e])
    have hxs : '/' ∉ xs := fun e => hs (List.mem_cons_of_mem _ e)
    simpa [List.dropWhile_cons, hx] using ih hxs

/-- A rendered path without trailing separator is a directory part, empty or
ending in a separator, followed by its last segment. -/
theorem render_snoc (a : Bool) (segs : List (List Char)) (last : List Char) :
    render a (segs ++ [last]) false
      = (if a then ['/'] else []) ++ (if segs = [] then [] else glue segs ++ ['/']) ++ last := by
  by_cases h : segs = []
  · subst h
    simp [render, glue]
  · rw [render_false_of_ne_nil _ _ (by simp), glue_append segs [last] h (by simp)]
    simp [h, glue]

theorem basenameChars_append_slash (x name : List Char) (hne : name ≠ []) (hs : '/' ∉ name) :
    basenameChars (x ++ '/' :: name) = name := by
  unfold basenameChars
  have hr : name.reverse ≠ [] := by simpa using hne
  have hsr : '/' ∉ name.reverse := by simpa using hs
  rw [List.reverse_append, List.reverse_cons, List.append_assoc,
    dropWhile_slash_append _ _ hr hsr]
  simp only [List.singleton_append]
  rw [takeWhile_not_slash_append _ _ hsr, List.reverse_reverse]

theorem basenameChars_of_not_mem (name : List Char) (hne : name ≠ []) (hs : '/' ∉ name) :
    basenameChars name = name := by
  unfold basenameChars
  have hr : name.reverse ≠ [] := by simpa using hne
  have hsr : '/' ∉ name.reverse := by simpa using hs
  have := dropWhile_slash_append name.reverse [] hr hsr
  rw [List.append_nil] at this
  rw [this, takeWhile_not_slash _ hsr, List.reverse_reverse]

theorem basenameChars_render_snoc (a : Bool) (segs : List (List Char)) (name : List Char)
    (hne : name ≠ []) (hs : '/' ∉ name) :
    basenameChars (render a (segs ++ [name]) false) = name := by
  rw [render_snoc]
  by_cases h : segs = []
  · cases a
    · simpa [h] using basenameChars_of_not_mem name hne hs
    · simpa [h] using basenameChars_append_slash [] name hne hs
  · simp only [h, if_false]
    rw [List.append_assoc, List.append_assoc, List.singleton_append, ← List.append_assoc]
    exact basenameChars_append_slash _ name hne hs

end path

/-! ## The project name -/

theorem relNames_of_name (name : String) (h : path.IsName name.data) :
    relNames name = [name.data] := by
  unfold relNames
  rw [path.splitSlash_of_not_mem _ h.1.2.2]
  simp [h.1.1]

theorem isRelative_of_name (name : String) (h : path.IsName name.data) :
    path.IsRelative name := by
  refine ⟨fun e => h.1.1 (by rw [e]), fun e => h.1.2.2 ?_⟩
  exact List.mem_of_mem_head? e

theorem join_name (cwd name : String) (h : path.IsName name.data) :
    path.join [cwd, name]
      = ⟨path.render (path.rootOf cwd) (path.segsOf cwd ++ [name.data]) false⟩ := by
  have hlast : name.data.getLast? ≠ some '/' :=
    fun e => h.1.2.2 (List.mem_of_mem_getLast? e)
  rw [path.join_plain cwd name (isRelative_of_name name h)
    (by rw [relNames_of_name name h]; simpa using h), relNames_of_name name h]
  simp [hlast]

theorem readme_starts_with_title (targetDir : String) (answers : ProjectAnswers) :
    ("# " ++ path.basename targetDir ++ "\n").data
      <+: (generateReadmeContent targetDir answers).data := by
  have hbody := readme_body answers.language answers.useSlashCommands
  have hreadme : generateReadmeContent "" answers
      = generateReadmeContent "" ⟨none, answers.language, answers.useSlashCommands⟩ := rfl
  rw [generateReadmeContent_data, hreadme, hbody.1]
  refine ⟨(generateReadmeContent "" ⟨none, answers.language, answers.useSlashCommands⟩).data.drop 3, ?_⟩
  have h1 : ∀ n : String, ("# " ++ n ++ "\n").data = '#' :: ' ' :: (n.data ++ ['\n']) :=
    fun n => by
      rw [String.data_append, String.data_append]
      rfl
  rw [h1]
  simp

/-- C5 fails as stated: for the project name bots/my-bot given on the command
line in /home/u the manifest is named my-bot, not bots/my-bot. -/
theorem basename_of_nested_name :
    resolveProjectName (some "bots/my-bot") ⟨none, Language.JavaScript, true⟩
      = some "bots/my-bot" ∧
    path.basename (path.join ["/home/u", "bots/my-bot"]) = "my-bot" ∧
    path.basename (path.join ["/home/u", "bots/my-bot"]) ≠ "bots/my-bot" ∧
    (packageJson (path.join ["/home/u", "bots/my-bot"]) ⟨none, Language.JavaScript, true⟩).get? "name"
      = some (Json.str "my-bot") := by
  refine ⟨by decide, by decide, by decide, ?_⟩
  have h : path.basename (path.join ["/home/u", "bots/my-bot"]) = "my-bot" := by decide
  simp [packageJson, Json.get?, h]

/-- C5, amended: when the project name is a single ordinary path segment (not
empty, without a separator, neither `.` nor `..`), then for every working
directory the last segment of `path.join(cwd, projectName)` is the project
name, and it is the `name` of the manifest and the title line of the README. -/
theorem basename_of_project_name (cwd projectName : String) (answers : ProjectAnswers)
    (h : path.IsName projectName.data) :
    let targetDir := path.join [cwd, projectName]
    path.basename targetDir = projectName ∧
    (packageJson targetDir answers).get? "name" = some (Json.str projectName) ∧
    ("# " ++ projectName ++ "\n").data <+: (generateReadmeContent targetDir answers).data := by
  intro targetDir
  have hb : path.basename targetDir = projectName := by
    show path.basename (path.join [cwd, projectName]) = projectName
    rw [join_name cwd projectName h]
    exact String.ext (path.basenameChars_render_snoc _ _ _ h.1.1 h.1.2.2)
  refine ⟨hb, ?_, ?_⟩
  · simp [packageJson, Json.get?, hb]
  · rw [← hb]
    exact readme_starts_with_title targetDir answers

/-- C5, amended, at a concrete input: the project my-bot, named on the command
line, created in /home/u. -/
theorem basename_of_project_name_witness :
    resolveProjectName (some "my-bot") ⟨none, Language.TypeScript, true⟩ = some "my-bot" ∧
    path.IsName "my-bot".data ∧
    (let targetDir := path.join ["/home/u", "my-bot"]
    path.basename targetDir = "my-bot" ∧
    (packageJson targetDir ⟨none, Language.TypeScript, true⟩).get? "name"
      = some (Json.str "my-bot") ∧
    ("# " ++ "my-bot" ++ "\n").data
      <+: (generateReadmeContent targetDir ⟨none, Language.TypeScript, true⟩).data) :=
  ⟨by decide, by decide,
    basename_of_project_name "/home/u" "my-bot" ⟨none, Language.TypeScript, true⟩ (by decide)⟩

/-! ## Joins of joins -/

namespace path

theorem kept_foldl_allSegs (parts : List (List Char)) :
    ∀ s ∈ ((allSegs parts).foldl (normStep true) []).reverse, Kept s := by
  intro s hs
  exact kept_of_mem_foldl true _ [] (fun x hx => not_mem_of_mem_allSegs parts x hx) (by simp) s
    (List.mem_reverse.1 hs)

theorem render_ne_nil (a tr : Bool) (segs : List (List Char)) (h : ∀ s ∈ segs, Kept s) :
    render a segs tr ≠ [] := by
  by_cases hn : segs = []
  · subst hn
    cases a <;> cases tr <;> simp [render]
  · have hg := glue_ne_nil segs hn (fun s hs => (h s hs).1)
    cases a <;> cases tr <;> simp [render, hn, hg]

/-- A join of relative pieces is itself a relative piece. -/
theorem isRelative_join (ks : List String) (hne : ks ≠ []) (hrel : ∀ k ∈ ks, IsRelative k) :
    IsRelative (join ks) := by
  rw [join_relative ks hne hrel]
  have hk := kept_foldl_allSegs (ks.map String.data)
  have hroot := head?_render false
    (decide ((glue (ks.map String.data)).getLast? = some '/')) _ hk
  constructor
  · intro e
    have hd := congrArg String.data e
    exact render_ne_nil _ _ _ hk hd
  · intro e
    simp only at e
    rw [e] at hroot
    simp at hroot

/-- Visiting the segments of a join of relative pieces is visiting the segments
of the pieces. -/
theorem foldl_splitSlash_join (a : Bool) (S : List (List Char)) (ks : List String)
    (hne : ks ≠ []) (hrel : ∀ k ∈ ks, IsRelative k) :
    (splitSlash (join ks).data).foldl (normStep a) S
      = (allSegs (ks.map String.data)).foldl (normStep a) S := by
  rw [join_relative ks hne hrel]
  simp only
  rw [foldl_splitSlash_render a false _ _ S (kept_foldl_allSegs _),
    foldl_normStep_reverse_foldl a _ S (fun s hs => not_mem_of_mem_allSegs _ s hs)]

theorem join_cons_join (t : String) (ks : List String) (k : String) (hne : ks ≠ [])
    (hrel : ∀ x ∈ ks, IsRelative x) (hk : IsRelative k) :
    join [t, join ks, k] = join (t :: (ks ++ [k])) := by
  have hkd : k.data ≠ [] := data_ne_nil k hk.1
  have hj := isRelative_join ks hne hrel
  rw [join_cons_relative t [join ks, k] (by simp) (by
      intro x hx
      rcases List.mem_cons.1 hx with e | e
      · exact e ▸ hj
      · rw [List.mem_singleton.1 e]; exact hk),
    join_cons_relative t (ks ++ [k]) (by simp) (by
      intro x hx
      rcases List.mem_append.1 hx with e | e
      · exact hrel x e
      · rw [List.mem_singleton.1 e]; exact hk)]
  have hsegs : (allSegs ([join ks, k].map String.data)).foldl (normStep (!rootOf t))
        (segsOf t).reverse
      = (allSegs ((ks ++ [k]).map String.data)).foldl (normStep (!rootOf t))
        (segsOf t).reverse := by
    simp only [List.map_cons, List.map_nil, List.map_append, allSegs, allSegs_append,
      List.append_nil, List.foldl_append]
    rw [foldl_splitSlash_join _ _ ks hne hrel]
  have htr : (glue ([join ks, k].map String.data)).getLast?
      = (glue ((ks ++ [k]).map String.data)).getLast? := by
    rw [List.map_append, glue_append _ _ (by simpa using hne) (by simp)]
    simp only [List.map_cons, List.map_nil, glue]
    rw [getLast?_append_cons_ne_nil _ _ _ hkd, getLast?_append_cons_ne_nil _ _ _ hkd]
  rw [hsegs, htr]

theorem join_join (ks : List String) (k : String) (hne : ks ≠ [])
    (hrel : ∀ x ∈ ks, IsRelative x) (hk : IsRelative k) :
    join [join ks, k] = join (ks ++ [k]) := by
  have := join_cons_join "" ks k hne hrel hk
  rwa [join_nil_cons, join_nil_cons] at this

theorem join_cons_nil_cons (t : String) (args : List String) :
    join (t :: "" :: args) = join (t :: args) := by
  simp [join, List.filter_cons]

end path

/-! ## The directory builder -/

theorem createProjectStructure_recorder (root : String) (tree : ProjectStructure) :
    createProjectStructure recorder root tree "" []
      = ((ensuredPaths root tree "").map Op.ensureDir, .ok ()) := by
  unfold recorder
  rw [createProjectStructure_recording, exec_neverFails]
  rfl

theorem length_ensuredPaths (root : String) (tree : ProjectStructure) (cur : String) :
    (ensuredPaths root tree cur).length = nodeCount tree := by
  induction tree generalizing cur with
  | empty => rfl
  | entry key value rest ihv ihr =>
    simp only [ensuredPaths, nodeCount, List.length_cons, List.length_append, ihv, ihr]
    omega

theorem length_nodePaths (tree : ProjectStructure) : (nodePaths tree).length = nodeCount tree := by
  induction tree with
  | empty => rfl
  | entry key value rest ihv ihr =>
    simp only [nodePaths, nodeCount, List.length_cons, List.length_append, List.length_map, ihv,
      ihr]
    omega

/-- The accumulated `currentPath` is the join of the names above, so every
ensured path is the join of the root and the names down to the node. -/
theorem ensuredPaths_eq_joins (root : String) (tree : ProjectStructure) (above : List String)
    (habove : ∀ k ∈ above, path.IsRelative k) (htree : ∀ k ∈ allKeys tree, path.IsRelative k) :
    ensuredPaths root tree (if above = [] then "" else path.join above)
      = (nodePaths tree).map (fun names => path.join (root :: (above ++ names))) := by
  induction tree generalizing above with
  | empty => rfl
  | entry key value rest ihv ihr =>
    have hkey : path.IsRelative key := htree key (by simp [allKeys])
    have hvalue : ∀ k ∈ allKeys value, path.IsRelative k :=
      fun k hk => htree k (by simp [allKeys, hk])
    have hrest : ∀ k ∈ allKeys rest, path.IsRelative k :=
      fun k hk => htree k (by simp [allKeys, hk])
    have habove' : ∀ k ∈ above ++ [key], path.IsRelative k := by
      intro k hk
      rcases List.mem_append.1 hk with h | h
      · exact habove k h
      · rw [List.mem_singleton.1 h]; exact hkey
    have hfull : path.join [root, if above = [] then "" else path.join above, key]
        = path.join (root :: (above ++ [key])) := by
      by_cases h : above = []
      · simp only [h, if_true, List.nil_append]
        exact path.join_cons_nil_cons root [key]
      · simp only [h, if_false]
        exact path.join_cons_join root above key h habove hkey
    have hcur : path.join [if above = [] then "" else path.join above, key]
        = (if above ++ [key] = [] then "" else path.join (above ++ [key])) := by
      have hne : ¬ (above ++ [key] = []) := by simp
      rw [if_neg hne]
      by_cases h : above = []
      · simp only [h, if_true, List.nil_append]
        exact path.join_nil_cons [key]
      · simp only [h, if_false]
        exact path.join_join above key h habove hkey
    simp only [ensuredPaths, nodePaths, List.map_cons, List.map_append, List.map_map]
    rw [hfull, hcur, ihv (above ++ [key]) habove' hvalue, ihr above habove hrest]
    simp [Function.comp_def]

/-- For a structure listed in the order of the loop, whose names are not empty
and do not begin with a separator: `createProjectStructure` completes and calls
`ensureDir` once per node, in pre-order, at the root joined with the names on
the path to the node. -/
theorem createProjectStructure_ensures_listed (root : String) (tree : ProjectStructure)
    (h : ∀ key ∈ allKeys tree, key ≠ "" ∧ key.data.head? ≠ some '/') :
    createProjectStructure recorder root tree "" []
      = ((nodePaths tree).map (fun names => Op.ensureDir (path.join (root :: names))), .ok ()) := by
  rw [createProjectStructure_recorder]
  have := ensuredPaths_eq_joins root tree [] (by simp) h
  simp only [if_true, List.nil_append] at this
  rw [this, List.map_map]
  rfl

/-! ## Building twice -/

theorem createProjectStructure_directories (root : String) (tree : ProjectStructure)
    (cur : String) (dirs : Finset String) :
    createProjectStructure directories root tree cur dirs
      = (dirs ∪ ensuredDirs root tree cur, .ok ()) := by
  induction tree generalizing cur dirs with
  | empty => simp [createProjectStructure, ensuredDirs, async_pure_apply]
  | entry key value rest ihv ihr =>
    unfold createProjectStructure
    simp only [async_bind_apply]
    have hens : directories.ensureDir (path.join [root, cur, key]) dirs
        = (dirs ∪ (selfAndAncestors (path.join [root, cur, key])).toFinset, .ok ()) := rfl
    rw [hens]
    simp only
    by_cases h : value.keysLength > 0
    · simp only [h, if_true]
      rw [async_bind_apply, ihv]
      simp only [ihr, ensuredDirs, Finset.union_assoc]
    · have hv : value = ProjectStructure.empty := by
        cases value with
        | empty => rfl
        | entry k v r => simp [ProjectStructure.keysLength] at h
      subst hv
      simp only [h, if_false]
      rw [async_bind_apply, async_pure_apply]
      simp only [ihr, ensuredDirs, Finset.union_assoc, Finset.empty_union]

/-- C7: on the file system seen as a set of directories, where `ensureDir`
adds a directory and the directories above it, building the same structure at
the same root a second time completes without error and leaves the set of
directories exactly as the first build left it, whatever the root, the
structure and the directories present at the start. -/
theorem createProjectStructure_idempotent (root : String) (tree : ProjectStructure)
    (dirs : Finset String) :
    let once := createProjectStructure directories root tree "" dirs
    once.2 = .ok () ∧
    dirs ⊆ once.1 ∧
    createProjectStructure directories root tree "" once.1 = (once.1, .ok ()) := by
  intro once
  have h1 : once = (dirs ∪ ensuredDirs root tree "", .ok ()) :=
    createProjectStructure_directories root tree "" dirs
  rw [h1]
  refine ⟨rfl, Finset.subset_union_left, ?_⟩
  rw [createProjectStructure_directories]
  simp only [Finset.union_assoc, Finset.union_self]

theorem directories_of_initialStructure :
    (createProjectStructure directories "/home/u/my-bot" initialStructure "" ∅).1
    = {"/home", "/home/u", "/home/u/my-bot", "/home/u/my-bot/src",
        "/home/u/my-bot/src/commands", "/home/u/my-bot/src/events",
        "/home/u/my-bot/src/utils", "/home/u/my-bot/config"} := by decide

/-! ## Failures -/

theorem exec_no_failure {ε : Type} (fails : List Op → Op → Option ε) (ops log : List Op)
    (h : ∀ j op, ops[j]? = some op → fails (log ++ ops.take j) op = none) :
    exec fails ops log = (log ++ ops, .ok ()) := by
  induction ops generalizing log with
  | nil => simp [exec, async_pure_apply]
  | cons o os ih =>
    have h0 : fails log o = none := by simpa using h 0 o (by simp)
    rw [exec_cons_of_passes _ _ _ _ h0, ih]
    · simp
    · intro j op hj
      have := h (j + 1) op (by simpa using hj)
      simpa using this

theorem exec_first_failure {ε : Type} (fails : List Op → Op → Option ε) (ops log : List Op)
    (i : Nat) (op : Op) (e : ε) (hi : ops[i]? = some op)
    (hbefore : ∀ j op', j < i → ops[j]? = some op' → fails (log ++ ops.take j) op' = none)
    (hfail : fails (log ++ ops.take i) op = some e) :
    exec fails ops log = (log ++ ops.take (i + 1), .error e) := by
  induction ops generalizing log i with
  | nil => simp at hi
  | cons o os ih =>
    cases i with
    | zero =>
      have ho : o = op := by simpa using hi
      subst ho
      have h0 : fails log o = some e := by simpa using hfail
      rw [exec_cons_of_fails _ _ _ _ e h0]
      simp
    | succ n =>
      have h0 : fails log o = none := by simpa using hbefore 0 o (Nat.succ_pos n) (by simp)
      rw [exec_cons_of_passes _ _ _ _ h0, ih (log ++ [o]) n (by simpa using hi)]
      · simp
      · intro j op' hj hop'
        have := hbefore (j + 1) op' (Nat.succ_lt_succ hj) (by simpa using hop')
        simpa using this
      · simpa using hfail

theorem action_of_ok {ε : Type} (fails : List Op → Op → Option ε)
    (cwd projectName : String) (answers : ProjectAnswers) (log w : List Op)
    (h : exec fails
        ((ensuredPaths (path.join [cwd, projectName]) initialStructure "").map Op.ensureDir ++
          templateOps (path.join [cwd, projectName]) answers) log = (w, .ok ())) :
    action (recording fails) cwd projectName answers log
      = (w, .success (successOutput projectName (path.join [cwd, projectName]) answers)) := by
  unfold action
  simp only [createProjectStructure_recording, createTemplateFiles_recording, exec_bind, h]

theorem action_of_error {ε : Type} (fails : List Op → Op → Option ε)
    (cwd projectName : String) (answers : ProjectAnswers) (log w : List Op) (e : ε)
    (h : exec fails
        ((ensuredPaths (path.join [cwd, projectName]) initialStructure "").map Op.ensureDir ++
          templateOps (path.join [cwd, projectName]) answers) log = (w, .error e)) :
    action (recording fails) cwd projectName answers log = (w, .exited 1 e) := by
  unfold action
  simp only [createProjectStructure_recording, createTemplateFiles_recording, exec_bind, h]

theorem action_recorder (cwd projectName : String) (answers : ProjectAnswers) :
    action recorder cwd projectName answers []
      = ((ensuredPaths (path.join [cwd, projectName]) initialStructure "").map Op.ensureDir ++
            templateOps (path.join [cwd, projectName]) answers,
          .success (successOutput projectName (path.join [cwd, projectName]) answers)) := by
  unfold recorder
  exact action_of_ok _ _ _ _ _ _ (by rw [exec_neverFails]; rfl)

/-- The directory builder and the body of the action on a file system whose
calls may throw, whatever decides the failures.  Let `plan` be the `ensureDir`
calls of a failure-free traversal.  If the call at position `i` is the first to
throw, with error `e`, then `createProjectStructure` rejects with `e` after
attempting exactly the calls up to position `i`; if none throws it completes
after all of them.  For the body of the action: if the first failing call is
an `ensureDir` of the structure build, it attempts nothing after it, writes no
file and ends in `process.exit(1)` with that error; if no call throws, it ends
on the success path. -/
theorem failure_stops_the_run {ε : Type} (fails : List Op → Op → Option ε)
    (root : String) (tree : ProjectStructure) (cwd projectName : String)
    (answers : ProjectAnswers) :
    let plan := (createProjectStructure recorder root tree "" []).1
    let dirs := (createProjectStructure recorder (path.join [cwd, projectName])
      initialStructure "" []).1
    let full := (action recorder cwd projectName answers []).1
    (∀ i op e, plan[i]? = some op →
      (∀ j op', j < i → plan[j]? = some op' → fails (plan.take j) op' = none) →
      fails (plan.take i) op = some e →
      createProjectStructure (recording fails) root tree "" []
        = (plan.take (i + 1), .error e)) ∧
    ((∀ j op', plan[j]? = some op' → fails (plan.take j) op' = none) →
      createProjectStructure (recording fails) root tree "" [] = (plan, .ok ())) ∧
    (∀ i op e, dirs[i]? = some op →
      (∀ j op', j < i → dirs[j]? = some op' → fails (dirs.take j) op' = none) →
      fails (dirs.take i) op = some e →
      action (recording fails) cwd projectName answers []
          = (dirs.take (i + 1), .exited 1 e) ∧
        ∀ attempted ∈ dirs.take (i + 1), attempted.isWrite = false) ∧
    ((∀ j op', full[j]? = some op' → fails (full.take j) op' = none) →
      action (recording fails) cwd projectName answers []
        = (full, .success (successOutput projectName (path.join [cwd, projectName]) answers))) := by
  intro plan dirs full
  have hplan : plan = (ensuredPaths root tree "").map Op.ensureDir := by
    show (createProjectStructure recorder root tree "" []).1 = _
    rw [createProjectStructure_recorder]
  have hdirs : dirs
      = (ensuredPaths (path.join [cwd, projectName]) initialStructure "").map Op.ensureDir := by
    show (createProjectStructure recorder _ initialStructure "" []).1 = _
    rw [createProjectStructure_recorder]
  have hfull : full = dirs ++ templateOps (path.join [cwd, projectName]) answers := by
    show (action recorder cwd projectName answers []).1 = _
    rw [action_recorder, hdirs]
  refine ⟨?_, ?_, ?_, ?_⟩
  · intro i op e hi hbefore hfail
    rw [createProjectStructure_recording, ← hplan,
      exec_first_failure fails plan [] i op e hi (by simpa using hbefore) (by simpa using hfail)]
    simp
  · intro hnone
    rw [createProjectStructure_recording, ← hplan,
      exec_no_failure fails plan [] (by simpa using hnone)]
    simp
  · intro i op e hi hbefore hfail
    have hlt : i < dirs.length := by
      by_contra hge
      rw [List.getElem?_eq_none (Nat.le_of_not_lt hge)] at hi
      exact absurd hi (by simp)
    have hget : ∀ j, j ≤ i → (dirs ++ templateOps (path.join [cwd, projectName]) answers)[j]?
        = dirs[j]? := fun j hj => List.getElem?_append_left (Nat.lt_of_le_of_lt hj hlt)
    have htake : ∀ j, j ≤ i + 1 →
        (dirs ++ templateOps (path.join [cwd, projectName]) answers).take j = dirs.take j :=
      fun j hj => List.take_append_of_le_length (Nat.le_trans hj hlt)
    constructor
    · apply action_of_error
      rw [← hdirs,
        exec_first_failure fails _ [] i op e (by rw [hget i (Nat.le_refl i)]; exact hi)
          (by
            intro j op' hj hop'
            rw [hget j (Nat.le_of_lt hj)] at hop'
            rw [htake j (by omega)]
            simpa using hbefore j op' hj hop')
          (by rw [htake i (by omega)]; simpa using hfail),
        htake (i + 1) (Nat.le_refl _)]
      simp
    · intro attempted hmem
      have hmem' : attempted ∈ dirs := List.mem_of_mem_take hmem
      rw [hdirs] at hmem'
      obtain ⟨p, _, rfl⟩ := List.mem_map.1 hmem'
      rfl
  · intro hnone
    apply action_of_ok
    rw [← hdirs, ← hfull, exec_no_failure fails full [] (by simpa using hnone)]
    simp

theorem ensuredPaths_my_bot :
    (createProjectStructure recorder (path.join ["/home/u", "my-bot"]) initialStructure "" []).1
      = [Op.ensureDir "/home/u/my-bot/src/", Op.ensureDir "/home/u/my-bot/src/commands/",
          Op.ensureDir "/home/u/my-bot/src/events/", Op.ensureDir "/home/u/my-bot/src/utils/",
          Op.ensureDir "/home/u/my-bot/config/"] := by
  rw [createProjectStructure_recorder]
  have h : ensuredPaths (path.join ["/home/u", "my-bot"]) initialStructure ""
      = ["/home/u/my-bot/src/", "/home/u/my-bot/src/commands/", "/home/u/my-bot/src/events/",
          "/home/u/my-bot/src/utils/", "/home/u/my-bot/config/"] := by decide
  rw [h]
  rfl

/-- The body of the action at a concrete input: creating my-bot in /home/u when
the events directory cannot be created.  It attempts the three directories up
to that one, nothing else, and exits with code 1 and the error. -/
theorem failure_stops_the_run_witness :
    action
        (recording (fun _ op =>
          if op.path = "/home/u/my-bot/src/events/" then some "EACCES" else none))
        "/home/u" "my-bot" ⟨none, Language.JavaScript, true⟩ []
      = ([Op.ensureDir "/home/u/my-bot/src/", Op.ensureDir "/home/u/my-bot/src/commands/",
          Op.ensureDir "/home/u/my-bot/src/events/"], .exited 1 "EACCES") := by
  have h := (failure_stops_the_run
    (fun _ op => if op.path = "/home/u/my-bot/src/events/" then some "EACCES" else none)
    "/home/u/my-bot" initialStructure "/home/u" "my-bot" ⟨none, Language.JavaScript, true⟩).2.2.1
    2 (Op.ensureDir "/home/u/my-bot/src/events/") "EACCES"
  simp only [ensuredPaths_my_bot] at h
  exact (h rfl (by
    intro j op' hj hop'
    have hj' : j = 0 ∨ j = 1 := by omega
    rcases hj' with rfl | rfl
    · have : op' = Op.ensureDir "/home/u/my-bot/src/" := by simpa using hop'.symm
      subst this
      decide
    · have : op' = Op.ensureDir "/home/u/my-bot/src/commands/" := by simpa using hop'.symm
      subst this
      decide) (by decide)).1

namespace path

theorem dropWhile_dropWhile_of_not_mem (l : List Char) (hs : '/' ∉ l) :
    (l.dropWhile (fun x => x = '/')).dropWhile (fun x => x ≠ '/') = [] := by
  apply dropWhile_not_slash
  intro h
  exact hs ((List.dropWhile_suffix _).subset h)

theorem dirnameChars_cons_append (c : Char) (bs file : List Char) (hne : file ≠ [])
    (hs : '/' ∉ file) (hroot : ¬ (c = '/' ∧ bs = [])) :
    dirnameChars (c :: (bs ++ '/' :: file)) = c :: bs := by
  have hr : file.reverse ≠ [] := by simpa using hne
  have hsr : '/' ∉ file.reverse := by simpa using hs
  have h1 : ((bs ++ '/' :: file).reverse.dropWhile (fun x => x = '/')).dropWhile
      (fun x => x ≠ '/') = '/' :: bs.reverse := by
    rw [List.reverse_append, List.reverse_cons, List.append_assoc,
      dropWhile_slash_append _ _ hr hsr]
    simp only [List.singleton_append]
    exact dropWhile_not_slash_append _ _ hsr
  unfold dirnameChars
  simp only [h1]
  have hroot' : ¬ (c = '/' ∧ bs.reverse = []) := by simpa using hroot
  rw [if_neg hroot', List.reverse_reverse]

theorem dirnameChars_render_snoc (a : Bool) (segs : List (List Char)) (file : List Char)
    (hk : ∀ s ∈ segs, Kept s) (hne : file ≠ []) (hs : '/' ∉ file) :
    dirnameChars (render a (segs ++ [file]) false) = render a segs false := by
  rw [render_snoc]
  by_cases h : segs = []
  · subst h
    cases a with
    | true =>
      simp only [if_true, List.append_nil, List.singleton_append, render]
      simp only [dirnameChars, dropWhile_dropWhile_of_not_mem file.reverse (by simpa using hs),
        if_true]
    | false =>
      obtain ⟨c, cs, rfl⟩ := List.exists_cons_of_ne_nil hne
      have hc : c ≠ '/' := fun e => hs (by simp [e])
      have hcs : '/' ∉ cs.reverse := by
        intro hm
        exact hs (List.mem_cons_of_mem _ (List.mem_reverse.1 hm))
      simp only [Bool.false_eq_true, if_false, if_true, List.nil_append, render]
      simp only [dirnameChars, dropWhile_dropWhile_of_not_mem cs.reverse hcs, hc, if_false]
  · have hg := glue_ne_nil segs h (fun s hs => (hk s hs).1)
    rw [render_false_of_ne_nil a segs h]
    simp only [h, if_false]
    obtain ⟨s, rest, hsegs⟩ := List.exists_cons_of_ne_nil h
    have hhead : (glue segs).head? = s.head? :=
      head?_glue segs s rest hsegs (hk s (by simp [hsegs])).1
    have hsne : s.head? ≠ some '/' := by
      intro e
      exact (hk s (by simp [hsegs])).2.2 (List.mem_of_mem_head? e)
    cases a with
    | true =>
      simp only [if_true, List.singleton_append, List.cons_append, List.append_assoc]
      exact dirnameChars_cons_append '/' (glue segs) file hne hs (fun hh => hg hh.2)
    | false =>
      simp only [Bool.false_eq_true, if_false, List.nil_append, List.append_assoc,
        List.singleton_append]
      obtain ⟨c, cs, hc⟩ := List.exists_cons_of_ne_nil hg
      rw [hc]
      have hcne : c ≠ '/' := by
        intro e
        rw [hc] at hhead
        exact hsne (by rw [← hhead, e]; rfl)
      exact dirnameChars_cons_append c cs file hne hs (fun hh => hcne hh.1)

/-- A join is a fixed point of normalization: it is the rendering of its own
root flag and segments. -/
theorem join_normal (args : List String) :
    ∃ tr : Bool, join args = ⟨render (rootOf (join args)) (segsOf (join args)) tr⟩ := by
  by_cases hp : (args.filter (fun a => a ≠ "")).map String.data = []
  · refine ⟨false, ?_⟩
    have : join args = "." := by
      unfold join
      simp only [hp, if_true]
    rw [this]
    decide
  · have hj : join args
        = ⟨normalizeChars (glue ((args.filter (fun a => a ≠ "")).map String.data))⟩ := by
      unfold join
      simp only [hp, if_false]
    have hne : glue ((args.filter (fun a => a ≠ "")).map String.data) ≠ [] := by
      apply glue_ne_nil _ hp
      intro s hs
      obtain ⟨x, hx, rfl⟩ := List.mem_map.1 hs
      have : x ≠ "" := by simpa using (List.mem_filter.1 hx).2
      exact data_ne_nil x this
    generalize glue ((args.filter (fun a => a ≠ "")).map String.data) = p at hj hne
    rw [normalizeChars_eq_render p hne] at hj
    have hroot : rootOf ⟨p⟩ = decide (p.head? = some '/') := rfl
    rw [← hroot] at hj
    have hsegs : segsOf ⟨p⟩ = normSegs (!rootOf ⟨p⟩) p := rfl
    rw [← hsegs] at hj
    refine ⟨decide (p.getLast? = some '/'), ?_⟩
    have h1 := rootOf_render (rootOf ⟨p⟩) (decide (p.getLast? = some '/')) (segsOf ⟨p⟩)
      (kept_segsOf ⟨p⟩)
    have h2 := segsOf_render_append ⟨p⟩ [] (decide (p.getLast? = some '/')) (by simp)
    rw [List.append_nil] at h2
    rw [hj, h1, h2]

/-- A join whose pieces after the first are relative and made of ordinary
names appends those names to the normalized segments of the first piece. -/
theorem join_cons_names (t : String) (ks : List String) (hne : ks ≠ [])
    (hrel : ∀ k ∈ ks, IsRelative k)
    (hn : ∀ n ∈ (allSegs (ks.map String.data)).filter (fun s => s ≠ []), IsName n) :
    join (t :: ks)
      = ⟨render (rootOf t)
          (segsOf t ++ (allSegs (ks.map String.data)).filter (fun s => s ≠ []))
          (decide ((glue (ks.map String.data)).getLast? = some '/'))⟩ := by
  rw [join_cons_relative t ks hne hrel, foldl_normStep_filter, foldl_normStep_names _ _ _ hn]
  simp

end path

/-! ## Every file lands in a directory that was created -/

theorem join_dir (t : String) (ks : List String) (names : List (List Char)) (hne : ks ≠ [])
    (hrel : ∀ k ∈ ks, path.IsRelative k)
    (hsegs : (path.allSegs (ks.map String.data)).filter (fun s => s ≠ []) = names)
    (hn : ∀ n ∈ names, path.IsName n)
    (htr : (path.glue (ks.map String.data)).getLast? = some '/') :
    path.join (t :: ks) = ⟨path.render (path.rootOf t) (path.segsOf t ++ names) true⟩ := by
  rw [path.join_cons_names t ks hne hrel (by rw [hsegs]; exact hn), hsegs]
  simp [htr]

theorem ensuredPaths_initialStructure (t : String) :
    ensuredPaths t initialStructure ""
      = [⟨path.render (path.rootOf t) (path.segsOf t ++ ["src".data]) true⟩,
          ⟨path.render (path.rootOf t) (path.segsOf t ++ ["src".data, "commands".data]) true⟩,
          ⟨path.render (path.rootOf t) (path.segsOf t ++ ["src".data, "events".data]) true⟩,
          ⟨path.render (path.rootOf t) (path.segsOf t ++ ["src".data, "utils".data]) true⟩,
          ⟨path.render (path.rootOf t) (path.segsOf t ++ ["config".data]) true⟩] := by
  have h := ensuredPaths_eq_joins t initialStructure [] (by simp) (by decide)
  simp only [if_true, List.nil_append] at h
  rw [h]
  have hnodes : nodePaths initialStructure
      = [["src/"], ["src/", "commands/"], ["src/", "events/"], ["src/", "utils/"], ["config/"]] := by
    decide
  rw [hnodes]
  simp only [List.map_cons, List.map_nil]
  rw [join_dir t ["src/"] ["src".data] (by simp) (by decide) (by decide) (by decide) (by decide),
    join_dir t ["src/", "commands/"] ["src".data, "commands".data] (by simp) (by decide)
      (by decide) (by decide) (by decide),
    join_dir t ["src/", "events/"] ["src".data, "events".data] (by simp) (by decide)
      (by decide) (by decide) (by decide),
    join_dir t ["src/", "utils/"] ["src".data, "utils".data] (by simp) (by decide)
      (by decide) (by decide) (by decide),
    join_dir t ["config/"] ["config".data] (by simp) (by decide) (by decide) (by decide)
      (by decide)]

theorem sameDirectory_render (r tr : Bool) (segs : List (List Char)) :
    sameDirectory ⟨path.render r segs false⟩ ⟨path.render r segs tr⟩ := by
  cases tr with
  | false => exact Or.inl rfl
  | true =>
    by_cases h : segs = []
    · subst h
      cases r
      · exact Or.inr (Or.inl (by decide))
      · exact Or.inl (by decide)
    · refine Or.inr (Or.inl ?_)
      apply String.ext
      rw [String.data_append, path.render_false_of_ne_nil r segs h,
        path.render_true_of_ne_nil r segs h]

theorem dirname_join_candidate (t rel : String) (h : rel ∈ candidateFiles) :
    path.dirname (path.join [t, rel])
      = ⟨path.render (path.rootOf t) (path.segsOf t ++ (relNames rel).dropLast) false⟩ := by
  have hp := candidateFiles_plain rel h
  rw [join_plainFile t rel hp]
  have hsplit : relNames rel = (relNames rel).dropLast ++ [(relNames rel).getLast hp.2.1] :=
    (List.dropLast_append_getLast hp.2.1).symm
  have hlast : path.IsName ((relNames rel).getLast hp.2.1) :=
    hp.2.2.1 _ (List.getLast_mem hp.2.1)
  unfold path.dirname
  apply String.ext
  show path.dirnameChars (path.render (path.rootOf t) (path.segsOf t ++ relNames rel) false) = _
  rw [hsplit, ← List.append_assoc, path.dirnameChars_render_snoc _ _ _ ?_ hlast.1.1 hlast.1.2.2]
  · rw [List.dropLast_concat]
  · intro s hs
    rcases List.mem_append.1 hs with h1 | h1
    · exact path.kept_segsOf t s h1
    · exact (hp.2.2.1 s (List.mem_of_mem_dropLast h1)).1

theorem candidate_parent :
    ∀ rel ∈ candidateFiles,
      (relNames rel).dropLast ∈ [[], ["src".data], ["src".data, "commands".data],
        ["src".data, "events".data], ["src".data, "utils".data]] := by
  decide

/-- C10: in a run of the action on a file system that never fails, every file
is written into the target directory itself or into a directory that
`createProjectStructure` ensured earlier in the same run; directories are
compared up to one trailing separator, and the parent of a file is
`path.dirname` of its path.  This holds for every working directory, project
name and configuration. -/
theorem writes_into_ensured_directories (cwd projectName : String) (answers : ProjectAnswers) :
    let targetDir := path.join [cwd, projectName]
    let log := (action recorder cwd projectName answers []).1
    ∀ (i : Nat) (op : Op), log[i]? = some op → op.isWrite = true →
      sameDirectory (path.dirname op.path) targetDir ∨
      ∃ j dir, j < i ∧ log[j]? = some (Op.ensureDir dir) ∧
        sameDirectory (path.dirname op.path) dir := by
  intro targetDir log i op hi hw
  obtain ⟨tr, hnormal⟩ := path.join_normal [cwd, projectName]
  have hlog : log = (ensuredPaths targetDir initialStructure "").map Op.ensureDir ++
      templateOps targetDir answers := by
    show (action recorder cwd projectName answers []).1 = _
    rw [action_recorder]
  rw [ensuredPaths_initialStructure] at hlog
  simp only [List.map_cons, List.map_nil] at hlog
  have h2 : targetDir = ⟨path.render (path.rootOf targetDir) (path.segsOf targetDir) tr⟩ :=
    hnormal
  clear_value log targetDir
  clear hnormal
  have hge : 5 ≤ i := by
    by_contra hlt
    have hcases : i = 0 ∨ i = 1 ∨ i = 2 ∨ i = 3 ∨ i = 4 := by omega
    rw [hlog] at hi
    rcases hcases with rfl | rfl | rfl | rfl | rfl <;>
      (simp at hi; subst hi; simp [Op.isWrite] at hw)
  have hmem : op ∈ templateOps targetDir answers := by
    rw [hlog] at hi
    have := List.getElem?_mem hi
    rcases List.mem_append.1 this with h | h
    · exfalso
      simp at h
      rcases h with rfl | rfl | rfl | rfl | rfl <;> simp [Op.isWrite] at hw
    · exact h
  have hpath : op.path ∈ (generatedFiles answers).map (fun rel => path.join [targetDir, rel]) := by
    rw [← paths_templateOps]
    exact List.mem_map_of_mem _ hmem
  obtain ⟨rel, hrel, hrel'⟩ := List.mem_map.1 hpath
  have hcand := generatedFiles_subset answers rel hrel
  have hdir := dirname_join_candidate targetDir rel hcand
  rw [hrel'] at hdir
  have hparent := candidate_parent rel hcand
  have hj : ∀ j, j < 5 → j < i := fun j hj => Nat.lt_of_lt_of_le hj hge
  have h0 : log[0]? = some (Op.ensureDir
      ⟨path.render (path.rootOf targetDir) (path.segsOf targetDir ++ ["src".data]) true⟩) := by
    rw [hlog]; rfl
  have h1 : log[1]? = some (Op.ensureDir
      ⟨path.render (path.rootOf targetDir)
        (path.segsOf targetDir ++ ["src".data, "commands".data]) true⟩) := by
    rw [hlog]; rfl
  have h2' : log[2]? = some (Op.ensureDir
      ⟨path.render (path.rootOf targetDir)
        (path.segsOf targetDir ++ ["src".data, "events".data]) true⟩) := by
    rw [hlog]; rfl
  have h3 : log[3]? = some (Op.ensureDir
      ⟨path.render (path.rootOf targetDir)
        (path.segsOf targetDir ++ ["src".data, "utils".data]) true⟩) := by
    rw [hlog]; rfl
  rw [hdir]
  simp only [List.mem_cons, List.mem_singleton, List.not_mem_nil, or_false] at hparent
  rcases hparent with h | h | h | h | h <;> rw [h]
  · left
    rw [List.append_nil]
    have h4 := sameDirectory_render (path.rootOf targetDir) tr (path.segsOf targetDir)
    exact Eq.mpr (congrArg (fun x => sameDirectory
      ⟨path.render (path.rootOf targetDir) (path.segsOf targetDir) false⟩ x) h2) h4
  · right
    exact ⟨0, _, hj 0 (by omega), h0, sameDirectory_render _ true _⟩
  · right
    exact ⟨1, _, hj 1 (by omega), h1, sameDirectory_render _ true _⟩
  · right
    exact ⟨2, _, hj 2 (by omega), h2', sameDirectory_render _ true _⟩
  · right
    exact ⟨3, _, hj 3 (by omega), h3, sameDirectory_render _ true _⟩

/-! ## Insertion order and the order of the loop -/

theorem nodePaths_entry (key : String) (value rest : ProjectStructure) :
    nodePaths (.entry key value rest)
      = ([key] :: (nodePaths value).map (fun names => key :: names)) ++ nodePaths rest := rfl

theorem perm_nodePaths_placeEntry (key : String) (value listed : ProjectStructure) :
    (nodePaths (placeEntry key value listed)).Perm (nodePaths (.entry key value listed)) := by
  induction listed with
  | empty => exact List.Perm.refl _
  | entry k v rest _ ihr =>
    have hswap : (nodePaths (.entry k v (placeEntry key value rest))).Perm
        (nodePaths (.entry key value (.entry k v rest))) := by
      rw [nodePaths_entry k v, nodePaths_entry key value, nodePaths_entry k v rest]
      refine (List.Perm.append_left _ ihr).trans ?_
      rw [nodePaths_entry key value rest, ← List.append_assoc, ← List.append_assoc]
      exact List.Perm.append_right _ List.perm_append_comm
    unfold placeEntry
    split
    · exact List.Perm.refl _
    · split
      · split
        · exact List.Perm.refl _
        · exact hswap
      · exact hswap

/-- Every node of the description is a node of the object and the other way
round, each as often as the other. -/
theorem perm_nodePaths_entriesOrder (description : ProjectStructure) :
    (nodePaths (entriesOrder description)).Perm (nodePaths description) := by
  induction description with
  | empty => exact List.Perm.refl _
  | entry key value rest ihv ihr =>
    refine (perm_nodePaths_placeEntry key _ _).trans ?_
    rw [nodePaths_entry, nodePaths_entry]
    exact List.Perm.append (List.Perm.cons _ (List.Perm.map _ ihv)) ihr

theorem mem_allKeys_placeEntry (key : String) (value listed : ProjectStructure) (x : String) :
    x ∈ allKeys (placeEntry key value listed) ↔ x ∈ allKeys (.entry key value listed) := by
  induction listed with
  | empty => exact Iff.rfl
  | entry k v rest _ ihr =>
    have hswap : x ∈ allKeys (.entry k v (placeEntry key value rest))
        ↔ x ∈ allKeys (.entry key value (.entry k v rest)) := by
      simp only [allKeys, List.mem_cons, List.mem_append] at ihr ⊢
      rw [ihr]
      tauto
    unfold placeEntry
    split
    · exact Iff.rfl
    · split
      · split
        · exact Iff.rfl
        · exact hswap
      · exact hswap

theorem mem_allKeys_entriesOrder (description : ProjectStructure) (x : String) :
    x ∈ allKeys (entriesOrder description) ↔ x ∈ allKeys description := by
  induction description with
  | empty => exact Iff.rfl
  | entry key value rest ihv ihr =>
    show x ∈ allKeys (placeEntry key (entriesOrder value) (entriesOrder rest)) ↔ _
    rw [mem_allKeys_placeEntry]
    simp only [allKeys, List.mem_cons, List.mem_append, ihv, ihr]

/-- Without array indices among the names, `Object.entries` lists every
object in insertion order. -/
theorem entriesOrder_of_no_index (description : ProjectStructure)
    (h : ∀ key ∈ allKeys description, arrayIndex? key = none) :
    entriesOrder description = description := by
  induction description with
  | empty => rfl
  | entry key value rest ihv ihr =>
    have hv := ihv (fun k hk => h k (by simp [allKeys, hk]))
    have hr := ihr (fun k hk => h k (by simp [allKeys, hk]))
    show placeEntry key (entriesOrder value) (entriesOrder rest) = _
    rw [hv, hr]
    cases rest with
    | empty => rfl
    | entry k v r =>
      have hk : arrayIndex? k = none := h k (by simp [allKeys])
      simp [placeEntry, hk]

/-- C6 fails as stated, twice.  In the structure with the single top name
`/..` and the name `x` below it, built in /r/p, the second directory is ensured
at /r/p/x, while the root joined with the names on the path to that node is
/r/x.  And the structure written with the names b, 10 and 2 in this order,
with z and 0 below 2, built in /r, is walked as 2, 2/0, 2/z, 10, b and not in
insertion order. -/
theorem ensured_path_below_rooted_name :
    (createProjectStructure recorder "/r/p"
        (entriesOrder (.entry "/.." (.entry "x" .empty .empty) .empty)) "" []).1.map Op.path
      = ["/r", "/r/p/x"] ∧
    (nodePaths (.entry "/.." (.entry "x" .empty .empty) .empty)).map
        (fun names => path.join ("/r/p" :: names))
      = ["/r", "/r/x"] ∧
    (createProjectStructure recorder "/r"
        (entriesOrder (.entry "b" .empty (.entry "10" .empty
          (.entry "2" (.entry "z" .empty (.entry "0" .empty .empty)) .empty)))) "" []).1.map
        Op.path
      = ["/r/2", "/r/2/0", "/r/2/z", "/r/10", "/r/b"] ∧
    (nodePaths (.entry "b" .empty (.entry "10" .empty
        (.entry "2" (.entry "z" .empty (.entry "0" .empty .empty)) .empty)))).map
        (fun names => path.join ("/r" :: names))
      = ["/r/b", "/r/10", "/r/2", "/r/2/z", "/r/2/0"] ∧
    (createProjectStructure recorder "/r/p"
        (entriesOrder (.entry "/.." (.entry "x" .empty .empty) .empty)) "" []).1.map Op.path
      ≠ (nodePaths (.entry "/.." (.entry "x" .empty .empty) .empty)).map
        (fun names => path.join ("/r/p" :: names)) ∧
    (createProjectStructure recorder "/r"
        (entriesOrder (.entry "b" .empty (.entry "10" .empty
          (.entry "2" (.entry "z" .empty (.entry "0" .empty .empty)) .empty)))) "" []).1.map
        Op.path
      ≠ (nodePaths (.entry "b" .empty (.entry "10" .empty
          (.entry "2" (.entry "z" .empty (.entry "0" .empty .empty)) .empty)))).map
        (fun names => path.join ("/r" :: names)) := by
  refine ⟨by decide, by decide, by decide, by decide, by decide, by decide⟩

/-- C6, amended: for every structure description whose names are not empty and
do not begin with a separator, and every root, `createProjectStructure` run on
the object completes and calls `ensureDir` once per node and for nothing else,
each time at the root joined with the names on the path from the top to the
node.  The calls come in pre-order with siblings in the order `Object.entries`
lists them, array indices first in ascending order and the other names after
them in insertion order; the nodes visited are the nodes of the description,
each once, and without array indices among the names the order is insertion
order throughout. -/
theorem createProjectStructure_ensures_nodes (root : String) (description : ProjectStructure)
    (h : ∀ key ∈ allKeys description, key ≠ "" ∧ key.data.head? ≠ some '/') :
    createProjectStructure recorder root (entriesOrder description) "" []
      = ((nodePaths (entriesOrder description)).map
          (fun names => Op.ensureDir (path.join (root :: names))), .ok ()) ∧
    (nodePaths (entriesOrder description)).Perm (nodePaths description) ∧
    (nodePaths (entriesOrder description)).length = nodeCount description ∧
    ((∀ key ∈ allKeys description, arrayIndex? key = none) →
      createProjectStructure recorder root (entriesOrder description) "" []
        = ((nodePaths description).map
            (fun names => Op.ensureDir (path.join (root :: names))), .ok ())) := by
  have hlisted : ∀ key ∈ allKeys (entriesOrder description),
      key ≠ "" ∧ key.data.head? ≠ some '/' :=
    fun key hkey => h key ((mem_allKeys_entriesOrder description key).1 hkey)
  have hrun := createProjectStructure_ensures_listed root (entriesOrder description) hlisted
  refine ⟨hrun, perm_nodePaths_entriesOrder description, ?_, ?_⟩
  · rw [(perm_nodePaths_entriesOrder description).length_eq, length_nodePaths]
  · intro hno
    rw [hrun, entriesOrder_of_no_index description hno]

/-- C6, amended, at a concrete input: the structure of the tool built in
/home/u/my-bot. -/
theorem createProjectStructure_ensures_nodes_witness :
    (∀ key ∈ allKeys initialStructure, key ≠ "" ∧ key.data.head? ≠ some '/') ∧
    (createProjectStructure recorder "/home/u/my-bot" (entriesOrder initialStructure) "" []
      = ((nodePaths (entriesOrder initialStructure)).map
          (fun names => Op.ensureDir (path.join ("/home/u/my-bot" :: names))), .ok ()) ∧
    (nodePaths (entriesOrder initialStructure)).Perm (nodePaths initialStructure) ∧
    (nodePaths (entriesOrder initialStructure)).length = nodeCount initialStructure ∧
    ((∀ key ∈ allKeys initialStructure, arrayIndex? key = none) →
      createProjectStructure recorder "/home/u/my-bot" (entriesOrder initialStructure) "" []
        = ((nodePaths initialStructure).map
            (fun names => Op.ensureDir (path.join ("/home/u/my-bot" :: names))), .ok ()))) :=
  ⟨by decide, createProjectStructure_ensures_nodes "/home/u/my-bot" initialStructure (by decide)⟩

/-- The structure of the tool has no array index among its names, so the
object the action passes to `createProjectStructure` is listed as written. -/
theorem entriesOrder_initialStructure : entriesOrder initialStructure = initialStructure := by
  decide
/-! ## Loading the module -/

/-- C8, what the code does: the module never gets as far as the action.  The
statement `crea` on line 17 refers to a name that nothing binds, so loading
the module throws a ReferenceError: whatever the file system, the working
directory, the argument and the answers, the process ends with exit code 1 and
the world untouched.  In particular, on a file system on which no call fails,
where the body of the action on its own would make all its calls and end on
the success path, the run makes no call and does not end on the success path. -/
theorem module_load_throws {σ ε : Type} (fs : FileSystem σ ε) (cwd : String)
    (argument : Option String) (projectName : String) (answers : ProjectAnswers) (world : σ) :
    runModule fs cwd argument answers world
      = (world, .uncaught "ReferenceError: crea is not defined" 1) ∧
    (action recorder cwd projectName answers []).2
      = .success (successOutput projectName (path.join [cwd, projectName]) answers) ∧
    (runModule recorder cwd (some projectName) answers []
      : List Op × ProcessEnd Unit)
      = ([], .uncaught "ReferenceError: crea is not defined" 1) := by
  have h : evaluateReference "crea" = .error "ReferenceError: crea is not defined" := by
    unfold evaluateReference
    rw [if_neg (by decide)]
    exact congrArg Except.error (by decide)
  refine ⟨?_, ?_, ?_⟩
  · simp only [runModule, h]
  · rw [action_recorder]
  · simp only [runModule, h]

end CreateDjsApp
